import Mathlib

/-!
Verification of the AgentSentinel core against its specification.

This file shallowly embeds the core of the repository:
  * the JSON-like data model shared by stores and engines,
  * `core/common/change_set.py` (config patches, dot-path deep merge),
  * `infra/traces_store.py` and `infra/memory_store.py` (append-only JSONL stores),
  * `agentops/eval_packs/travel_pack.py` judge-output parsing and
    `agentops/eval_agent.py` `evaluate_answer` parsing,
  * `agentops/eval_engine/engine.py` (`_p95`, `_run_single_eval_case`,
    `run_full_eval`),
  * `agentops/improvement/apply_changeset.py` (`_next_id`,
    `append_new_testcases`).

Python dicts are modelled as association lists with unique keys, preserving
insertion order; dict assignment updates the value in place or appends a new
key at the end.  Python exceptions are modelled with `Except String`; file
system effects are passed in explicitly (file contents as lists of lines,
write success as an `Except`-valued argument).  Since the embedding is pure,
`copy.deepcopy` is modelled by the structural copy `deepcopy` below, which is
provably the identity on values.
-/

set_option maxHeartbeats 1000000

namespace AgentSentinel

/-- JSON-like values: the payloads of config files, store records, metric
values and parsed judge outputs.  Numbers are exact rationals. -/
inductive Json where
  | null
  | bool (b : Bool)
  | num (q : ℚ)
  | str (s : String)
  | arr (elems : List Json)
  | obj (fields : List (String × Json))
deriving Repr

mutual

def jsonBeq : Json → Json → Bool
  | .null, .null => true
  | .bool a, .bool b => a == b
  | .num a, .num b => a == b
  | .str a, .str b => a == b
  | .arr a, .arr b => jsonListBeq a b
  | .obj a, .obj b => jsonFieldsBeq a b
  | _, _ => false

def jsonListBeq : List Json → List Json → Bool
  | [], [] => true
  | x :: xs, y :: ys => jsonBeq x y && jsonListBeq xs ys
  | _, _ => false

def jsonFieldsBeq : List (String × Json) → List (String × Json) → Bool
  | [], [] => true
  | (k, x) :: xs, (k', y) :: ys => k == k' && jsonBeq x y && jsonFieldsBeq xs ys
  | _, _ => false

end

mutual

theorem jsonBeq_iff : ∀ a b, jsonBeq a b = true ↔ a = b
  | .null, b => by cases b <;> simp [jsonBeq]
  | .bool x, b => by cases b <;> simp [jsonBeq]
  | .num x, b => by cases b <;> simp [jsonBeq]
  | .str x, b => by cases b <;> simp [jsonBeq]
  | .arr xs, b => by
      cases b
      case arr ys => simpa [jsonBeq] using jsonListBeq_iff xs ys
      all_goals simp [jsonBeq]
  | .obj fs, b => by
      cases b
      case obj gs => simpa [jsonBeq] using jsonFieldsBeq_iff fs gs
      all_goals simp [jsonBeq]

theorem jsonListBeq_iff : ∀ a b, jsonListBeq a b = true ↔ a = b
  | [], b => by cases b <;> simp [jsonListBeq]
  | x :: xs, [] => by simp [jsonListBeq]
  | x :: xs, y :: ys => by
      simp [jsonListBeq, jsonBeq_iff x y, jsonListBeq_iff xs ys]

theorem jsonFieldsBeq_iff : ∀ a b, jsonFieldsBeq a b = true ↔ a = b
  | [], b => by cases b <;> simp [jsonFieldsBeq]
  | x :: xs, [] => by simp [jsonFieldsBeq]
  | (k, x) :: xs, (k', y) :: ys => by
      simp [jsonFieldsBeq, jsonBeq_iff x y, jsonFieldsBeq_iff xs ys, Prod.ext_iff]

end

instance : DecidableEq Json := fun a b =>
  decidable_of_iff (jsonBeq a b = true) (jsonBeq_iff a b)

/-- A Python dict with JSON values: an insertion-ordered association list. -/
abbrev JObj := List (String × Json)

/-- Model of `d.get(key)`: the value at the first (unique) occurrence of `key`. -/
def objGet : JObj → String → Option Json
  | [], _ => none
  | (k, v) :: rest, key => if k = key then some v else objGet rest key

/-- Model of `d[key] = v`: update the value in place if the key exists, else append. -/
def objSet : JObj → String → Json → JObj
  | [], key, v => [(key, v)]
  | (k, w) :: rest, key, v =>
      if k = key then (k, v) :: rest else (k, w) :: objSet rest key v

mutual

/-- Model of `copy.deepcopy` on JSON values: a fresh structural copy.  In the pure
value semantics this is provably the identity (`deepcopy_eq`); it is kept
explicit so that the merge of `change_set.py` is the same composition of
steps as the source. -/
def deepcopy : Json → Json
  | .null => .null
  | .bool b => .bool b
  | .num q => .num q
  | .str s => .str s
  | .arr xs => .arr (deepcopyList xs)
  | .obj fs => .obj (deepcopyFields fs)

def deepcopyList : List Json → List Json
  | [] => []
  | j :: rest => deepcopy j :: deepcopyList rest

def deepcopyFields : List (String × Json) → List (String × Json)
  | [] => []
  | (k, j) :: rest => (k, deepcopy j) :: deepcopyFields rest

end

mutual

theorem deepcopy_eq : ∀ j, deepcopy j = j
  | .null => rfl
  | .bool _ => rfl
  | .num _ => rfl
  | .str _ => rfl
  | .arr xs => by rw [deepcopy, deepcopyList_eq]
  | .obj fs => by rw [deepcopy, deepcopyFields_eq]

theorem deepcopyList_eq : ∀ xs, deepcopyList xs = xs
  | [] => rfl
  | j :: rest => by rw [deepcopyList, deepcopy_eq, deepcopyList_eq]

theorem deepcopyFields_eq : ∀ fs, deepcopyFields fs = fs
  | [] => rfl
  | (k, j) :: rest => by rw [deepcopyFields, deepcopy_eq, deepcopyFields_eq]

end

/-- Model of `deepcopy` on a dict (`copy.deepcopy(config)`). -/
def deepcopyObj (o : JObj) : JObj := deepcopyFields o

theorem deepcopyObj_eq (o : JObj) : deepcopyObj o = o := deepcopyFields_eq o

/- ---------------------------------------------------------------------
Characters that are awkward to write literally.
--------------------------------------------------------------------- -/

def quoteChar : Char := Char.ofNat 34
def backslashChar : Char := Char.ofNat 92
def lbraceChar : Char := Char.ofNat 123
def rbraceChar : Char := Char.ofNat 125

/- ---------------------------------------------------------------------
Model of Python `json.loads`: a strict JSON parser.
The `NaN`/`Infinity` extensions and surrogate pairs are not modelled;
no input in this development uses them.
--------------------------------------------------------------------- -/

def isJsonWs (c : Char) : Bool :=
  c = ' ' || c = '\t' || c = '\n' || c = '\r'

def skipWs : List Char → List Char
  | [] => []
  | c :: rest => if isJsonWs c then skipWs rest else c :: rest

def takeDigits : List Char → List Char × List Char
  | [] => ([], [])
  | c :: rest =>
      if c.isDigit then
        let (ds, r) := takeDigits rest
        (c :: ds, r)
      else ([], c :: rest)

def digitsToNat (ds : List Char) : Nat :=
  ds.foldl (fun acc c => acc * 10 + (c.toNat - '0'.toNat)) 0

def isHexChar (c : Char) : Bool :=
  c.isDigit || ('a' ≤ c ∧ c ≤ 'f') || ('A' ≤ c ∧ c ≤ 'F')

def hexVal (c : Char) : Nat :=
  if c.isDigit then c.toNat - '0'.toNat
  else if 'a' ≤ c ∧ c ≤ 'f' then c.toNat - 'a'.toNat + 10
  else c.toNat - 'A'.toNat + 10

/-- Parse the body of a JSON string after the opening quote, with escapes. -/
def parseStringBody : List Char → Option (List Char × List Char)
  | [] => none
  | c :: rest =>
      if c = quoteChar then some ([], rest)
      else if c = backslashChar then
        match rest with
        | [] => none
        | e :: rest2 =>
            let decoded : Option Char :=
              if e = quoteChar then some quoteChar
              else if e = backslashChar then some backslashChar
              else if e = '/' then some '/'
              else if e = 'b' then some (Char.ofNat 8)
              else if e = 'f' then some (Char.ofNat 12)
              else if e = 'n' then some '\n'
              else if e = 'r' then some '\r'
              else if e = 't' then some '\t'
              else none
            match decoded with
            | some d =>
                match parseStringBody rest2 with
                | some (cs, r) => some (d :: cs, r)
                | none => none
            | none =>
                if e = 'u' then
                  match rest2 with
                  | h1 :: h2 :: h3 :: h4 :: rest3 =>
                      if isHexChar h1 && isHexChar h2 && isHexChar h3 && isHexChar h4 then
                        let n := ((hexVal h1 * 16 + hexVal h2) * 16 + hexVal h3) * 16 + hexVal h4
                        match parseStringBody rest3 with
                        | some (cs, r) => some (Char.ofNat n :: cs, r)
                        | none => none
                      else none
                  | _ => none
                else none
      else if c.toNat < 32 then none
      else
        match parseStringBody rest with
        | some (cs, r) => some (c :: cs, r)
        | none => none

/-- Parse a strict JSON number as an exact rational: optional minus sign, an
integer part without leading zeros, an optional fraction and exponent. -/
def parseNumber (cs : List Char) : Option (ℚ × List Char) :=
  let (neg, cs1) :=
    match cs with
    | c :: rest => if c = '-' then (true, rest) else (false, cs)
    | [] => (false, [])
  match cs1 with
  | [] => none
  | c :: _ =>
      if ¬ c.isDigit then none
      else
        let (intDs, cs2) := takeDigits cs1
        if intDs.length > 1 ∧ intDs.headD '0' = '0' then none
        else
          let (fracDs, cs3) :=
            match cs2 with
            | d :: rest =>
                if d = '.' then
                  let (ds, r) := takeDigits rest
                  if ds = [] then ([], cs2) else (ds, r)
                else ([], cs2)
            | [] => ([], cs2)
          let (expVal, cs4, expOk) :=
            match cs3 with
            | e :: rest =>
                if e = 'e' ∨ e = 'E' then
                  let (esign, rest2) :=
                    match rest with
                    | s :: r2 =>
                        if s = '-' then ((-1 : Int), r2)
                        else if s = '+' then ((1 : Int), r2)
                        else ((1 : Int), rest)
                    | [] => ((1 : Int), rest)
                  let (eds, rest3) := takeDigits rest2
                  if eds = [] then ((0 : Int), cs3, false)
                  else (esign * (digitsToNat eds : Int), rest3, true)
                else ((0 : Int), cs3, true)
            | [] => ((0 : Int), cs3, true)
          if ¬ expOk then none
          else
            let mantissa : Int := (digitsToNat intDs * 10 ^ fracDs.length + digitsToNat fracDs : Nat)
            let signed : Int := if neg then -mantissa else mantissa
            let e10 : Int := expVal - fracDs.length
            if 0 ≤ e10 then some (((signed * 10 ^ e10.toNat : Int) : ℚ), cs4)
            else some (mkRat signed (10 ^ (-e10).toNat), cs4)

mutual

def parseValue : Nat → List Char → Option (Json × List Char)
  | 0, _ => none
  | _ + 1, [] => none
  | fuel + 1, c :: rest =>
      if c = 'n' then
        match c :: rest with
        | 'n' :: 'u' :: 'l' :: 'l' :: r => some (.null, r)
        | _ => none
      else if c = 't' then
        match c :: rest with
        | 't' :: 'r' :: 'u' :: 'e' :: r => some (.bool true, r)
        | _ => none
      else if c = 'f' then
        match c :: rest with
        | 'f' :: 'a' :: 'l' :: 's' :: 'e' :: r => some (.bool false, r)
        | _ => none
      else if c = quoteChar then
        match parseStringBody rest with
        | some (cs, r) => some (.str (String.mk cs), r)
        | none => none
      else if c = '-' ∨ c.isDigit then
        match parseNumber (c :: rest) with
        | some (q, r) => some (.num q, r)
        | none => none
      else if c = '[' then
        match skipWs rest with
        | ']' :: r => some (.arr [], r)
        | cs1 =>
            match parseElements fuel cs1 with
            | some (vs, r) => some (.arr vs, r)
            | none => none
      else if c = lbraceChar then
        match skipWs rest with
        | d :: r =>
            if d = rbraceChar then some (.obj [], r)
            else
              match parseMembers fuel (d :: r) with
              | some (pairs, r2) =>
                  -- build the dict pair by pair: a later duplicate key
                  -- overwrites the value at the first occurrence, as in Python
                  some (.obj (pairs.foldl (fun o p => objSet o p.1 p.2) []), r2)
              | none => none
        | [] => none
      else none
termination_by structural fuel => fuel

def parseElements : Nat → List Char → Option (List Json × List Char)
  | 0, _ => none
  | fuel + 1, cs =>
      match parseValue fuel (skipWs cs) with
      | none => none
      | some (v, rest) =>
          match skipWs rest with
          | ',' :: rest2 =>
              match parseElements fuel rest2 with
              | some (vs, r) => some (v :: vs, r)
              | none => none
          | ']' :: rest2 => some ([v], rest2)
          | _ => none
termination_by structural fuel => fuel

def parseMembers : Nat → List Char → Option (List (String × Json) × List Char)
  | 0, _ => none
  | fuel + 1, cs =>
      match skipWs cs with
      | c :: rest =>
          if c = quoteChar then
            match parseStringBody rest with
            | some (key, rest2) =>
                match skipWs rest2 with
                | ':' :: rest3 =>
                    match parseValue fuel (skipWs rest3) with
                    | some (v, rest4) =>
                        match skipWs rest4 with
                        | ',' :: rest5 =>
                            match parseMembers fuel rest5 with
                            | some (o, r) => some ((String.mk key, v) :: o, r)
                            | none => none
                        | d :: rest5 =>
                            if d = rbraceChar then
                              some ([(String.mk key, v)], rest5)
                            else none
                        | [] => none
                    | none => none
                | _ => none
            | none => none
          else none
      | [] => none
termination_by structural fuel => fuel

end

/-- Model of Python `json.loads`: parse a whole string as one JSON value. -/
def jsonParse (s : String) : Option Json :=
  match parseValue (s.length + 2) (skipWs s.toList) with
  | some (v, rest) => if skipWs rest = [] then some v else none
  | none => none


/- ---------------------------------------------------------------------
Python value conversions used by the sources.
--------------------------------------------------------------------- -/

/-- Python truthiness (`bool(x)`) on JSON values. -/
def truthy : Json → Bool
  | .null => false
  | .bool b => b
  | .num q => ¬ (q = 0)
  | .str s => ¬ (s = "")
  | .arr xs => ¬ (xs = [])
  | .obj fs => ¬ (fs = [])

/-- Python `str.isspace` for the ASCII whitespace characters. -/
def pyIsSpace (c : Char) : Bool :=
  c = ' ' || c = '\t' || c = '\n' || c = '\r' || c = Char.ofNat 11 || c = Char.ofNat 12

/-- Strip whitespace from both ends of a character list. -/
def stripChars (cs : List Char) : List Char :=
  ((cs.dropWhile pyIsSpace).reverse.dropWhile pyIsSpace).reverse

/-- Python `str.strip()`. -/
def pyStrip (s : String) : String := String.mk (stripChars s.toList)

def backtickChar : Char := Char.ofNat 96

/-- Model of `str.startswith("```")`. -/
def startsWithFence (cs : List Char) : Bool :=
  match cs with
  | a :: b :: c :: _ =>
      decide (a = backtickChar) && decide (b = backtickChar) && decide (c = backtickChar)
  | _ => false

/-- Python `str.splitlines` for texts whose line breaks are newlines and
which do not end in a newline (the only shape `_strip_code_fences` sees,
since its input is stripped first). -/
def splitOnNewline : List Char → List (List Char)
  | [] => [[]]
  | c :: rest =>
      match splitOnNewline rest with
      | [] => [[]]
      | line :: more => if c = '\n' then [] :: line :: more else (c :: line) :: more

/-- Model of `"\n".join(lines)` on character lists. -/
def joinNewline : List (List Char) → List Char
  | [] => []
  | [l] => l
  | l :: rest => l ++ '\n' :: joinNewline rest

/-- Python `int(s)` on a string: optional sign and decimal digits, with
surrounding whitespace allowed (digit grouping underscores not modelled). -/
def pyIntOfString (s : String) : Option Int :=
  let cs := stripChars s.toList
  let (sign, cs1) :=
    match cs with
    | '-' :: r => ((-1 : Int), r)
    | '+' :: r => ((1 : Int), r)
    | _ => ((1 : Int), cs)
  if cs1 ≠ [] ∧ cs1.all Char.isDigit then some (sign * digitsToNat cs1) else none

/-- Python `float(s)` on a string: optional sign, digits with an optional
dot on either side, optional exponent (`inf`/`nan` and underscores are not
modelled; no input here uses them). -/
def pyFloatOfString (s : String) : Option ℚ :=
  let cs := stripChars s.toList
  let (neg, cs1) :=
    match cs with
    | '-' :: r => (true, r)
    | '+' :: r => (false, r)
    | _ => (false, cs)
  let (intDs, cs2) := takeDigits cs1
  let (fracDs, cs3) :=
    match cs2 with
    | d :: rest =>
        if d = '.' then takeDigits rest
        else ([], cs2)
    | [] => ([], cs2)
  if intDs = [] ∧ fracDs = [] then none
  else
    let (expVal, cs4, expOk) :=
      match cs3 with
      | e :: rest =>
          if e = 'e' ∨ e = 'E' then
            let (esign, rest2) :=
              match rest with
              | c :: r2 =>
                  if c = '-' then ((-1 : Int), r2)
                  else if c = '+' then ((1 : Int), r2)
                  else ((1 : Int), rest)
              | [] => ((1 : Int), rest)
            let (eds, rest3) := takeDigits rest2
            if eds = [] then ((0 : Int), cs3, false)
            else (esign * (digitsToNat eds : Int), rest3, true)
          else ((0 : Int), cs3, true)
      | [] => ((0 : Int), cs3, true)
    if ¬ expOk ∨ cs4 ≠ [] then none
    else
      let mantissa : Int := (digitsToNat intDs * 10 ^ fracDs.length + digitsToNat fracDs : Nat)
      let signed : Int := if neg then -mantissa else mantissa
      let e10 : Int := expVal - fracDs.length
      if 0 ≤ e10 then some ((signed * 10 ^ e10.toNat : Int) : ℚ)
      else some (mkRat signed (10 ^ (-e10).toNat))

/-- Python `float(x)` on a JSON value; `none` models a raised exception. -/
def floatConv : Json → Option ℚ
  | .num q => some q
  | .bool b => some (if b then 1 else 0)
  | .str s => pyFloatOfString s
  | _ => none

/-- Python `int(x)` on a JSON value (floats truncate towards zero);
`none` models a raised exception. -/
def intConv : Json → Option Int
  | .num q => some (if 0 ≤ q then ⌊q⌋ else ⌈q⌉)
  | .bool b => some (if b then 1 else 0)
  | .str s => pyIntOfString s
  | _ => none

/- ---------------------------------------------------------------------
Judge-output parsing.

`agentops/eval_packs/travel_pack.py` (`_run_llm_judge`): JSON-parse the
whitespace-stripped model text; on any failure fall back to the first
standalone digit 1-5 (regex `\b([1-5])\b`), else score 0, with the raw
text as rationale.

`agentops/eval_agent.py` (`evaluate_answer`): strip code fences, JSON-parse;
on failure score 0 with a failure message (no digit fallback).
--------------------------------------------------------------------- -/

/-- A word character for the regex word boundary `\b` (ASCII approximation
of `\w`; all inputs in this development are ASCII). -/
def isWordChar (c : Char) : Bool := c.isAlphanum || c = '_'

def standaloneDigitScan : Option Char → List Char → Option Nat
  | _, [] => none
  | prev, c :: rest =>
      let prevOk : Bool := match prev with | none => true | some p => ! isWordChar p
      let nextOk : Bool := match rest with | [] => true | n :: _ => ! isWordChar n
      if (decide ('1' ≤ c) && decide (c ≤ '5')) && prevOk && nextOk then
        some (c.toNat - '0'.toNat)
      else standaloneDigitScan (some c) rest

/-- Model of `re.search` with pattern `\b([1-5])\b`: the first digit 1-5
carrying a word boundary on each side. -/
def firstStandaloneDigit (s : String) : Option Nat :=
  standaloneDigitScan none s.toList

/-- The `except` branch of `_run_llm_judge`: first standalone digit 1-5 as
the score (else 0), the raw text as rationale. -/
def travelJudgeFallback (ts : String) : ℚ × Json :=
  (match firstStandaloneDigit ts with
   | some d => (d : ℚ)
   | none => 0,
   .str ts)

/-- The score/rationale resolution of `_run_llm_judge` on the
whitespace-stripped judge output text. -/
def travelJudgeResolve (ts : String) : ℚ × Json :=
  match jsonParse ts with
  | some (.obj parsed) =>
      match floatConv ((objGet parsed "score").getD (.num 0)) with
      | some q => (q, (objGet parsed "rationale").getD (.str ts))
      | none => travelJudgeFallback ts
  | _ => travelJudgeFallback ts

/-- Single metric output from an eval pack (`eval_engine/models.py`). -/
structure MetricResult where
  name : String
  value : Json
  details : JObj
deriving Repr, DecidableEq

/-- The `MetricResult` built at the end of `_run_llm_judge`, as a function of
the raw judge response text (`text_stripped = (text or "").strip()`). -/
def travelJudgeMetric (modelName rubric : String) (text : String) : MetricResult :=
  let ts := pyStrip text
  let r := travelJudgeResolve ts
  { name := "judge_score"
    value := .num r.1
    details := [("type", .str "llm"), ("reasoning", r.2),
                ("model", .str modelName), ("rubric_id", .str rubric)] }

/-- Model of `_strip_code_fences` of `eval_agent.py`: if the stripped text starts with
a fence, drop a leading and a trailing fence line and strip again. -/
def stripCodeFences (text : String) : String :=
  let t := stripChars text.toList
  if startsWithFence t then
    let lines := splitOnNewline t
    let lines1 :=
      match lines with
      | [] => []
      | l0 :: rest => if startsWithFence (stripChars l0) then rest else lines
    let lines2 :=
      match lines1.getLast? with
      | some ll => if startsWithFence (stripChars ll) then lines1.dropLast else lines1
      | none => lines1
    String.mk (stripChars (joinNewline lines2))
  else String.mk t

/-- The result dict of `evaluate_answer` in `eval_agent.py`, as a function of
the raw judge response text (the Gemini call itself is the external
collaborator producing that text). -/
def evaluateAnswerOutcome (responseText : String) : JObj :=
  let rawText := pyStrip responseText
  let cleaned := stripCodeFences rawText
  let failed : JObj :=
    [("score", .num 0),
     ("reasoning", .str ("Failed to parse JSON from eval model. Raw response: " ++ rawText)),
     ("raw_response", .str rawText)]
  match jsonParse cleaned with
  | some (.obj parsed) =>
      match intConv ((objGet parsed "score").getD (.num 0)) with
      | some n =>
          [("score", .num (n : ℚ)),
           ("reasoning", (objGet parsed "reasoning").getD (.str "")),
           ("raw_response", .str rawText)]
      | none => failed
  | _ => failed


/- ---------------------------------------------------------------------
`core/common/change_set.py`: config patches and the dot-path merge.
--------------------------------------------------------------------- -/

/-- A single config update operation on a JSON config (`ConfigPatch`). -/
structure ConfigPatch where
  path : String
  op : String
  value : Json
deriving Repr, DecidableEq

/-- Model of `path.split(".")` on character lists. -/
def splitDots : List Char → List (List Char)
  | [] => [[]]
  | c :: rest =>
      match splitDots rest with
      | [] => [[]]
      | seg :: more => if c = '.' then [] :: seg :: more else (c :: seg) :: more

/-- Python `path.split(".")`. -/
def pySplitDot (s : String) : List String := (splitDots s.toList).map String.mk

/-- The walk of `_set_by_path` over the already-split path segments:
intermediate keys that are missing or not dicts are replaced by fresh empty
dicts, and the final segment is assigned. -/
def setByPathAux : JObj → List String → Json → JObj
  | o, [], _ => o
  | o, [k], v => objSet o k v
  | o, k :: rest, v =>
      let child : JObj :=
        match objGet o k with
        | some (.obj m) => m
        | _ => []
      objSet o k (.obj (setByPathAux child rest v))

/-- Model of `_set_by_path(obj, path, value)`.  (The Python function mutates `obj` in
place; the model returns the updated dict.) -/
def setByPath (o : JObj) (path : String) (v : Json) : JObj :=
  setByPathAux o (pySplitDot path) v

/-- Model of `apply_config_patches(config, patches)`: fold the patches over a deep
copy of the config; an unsupported op raises `ValueError`. -/
def apply_config_patches (config : JObj) (patches : List ConfigPatch) :
    Except String JObj :=
  patches.foldlM
    (fun acc p =>
      if p.op = "set" then Except.ok (setByPath acc p.path p.value)
      else Except.error ("Unsupported patch op: " ++ p.op))
    (deepcopyObj config)

/-- Navigation through nested dicts along a key path (used to state the
frame properties of the merge). -/
def getPath : Json → List String → Option Json
  | j, [] => some j
  | .obj o, k :: rest =>
      match objGet o k with
      | some j => getPath j rest
      | none => none
  | _, _ :: _ => none

/-- The predicate `pathLe p q`: the key path `p` is an initial segment of `q`. -/
def pathLe : List String → List String → Bool
  | [], _ => true
  | _ :: _, [] => false
  | a :: p, b :: q => decide (a = b) && pathLe p q

mutual

/-- Model of `_deep_merge_dict(base, patch)` of `improvement/apply_changeset.py`:
recursively merge `patch` into `base`; when both the existing value and the
patch value are dicts the merge recurses, otherwise the patch value
overwrites.  (The Python function mutates and returns `base`.) -/
def deepMergeDict : JObj → List (String × Json) → JObj
  | base, [] => base
  | base, (k, pv) :: restPatch =>
      deepMergeDict (deepMergeOne base k pv) restPatch

/-- One `base[key] = ...` step of `_deep_merge_dict`. -/
def deepMergeOne (base : JObj) (k : String) : Json → JObj
  | .obj po =>
      match objGet base k with
      | some (.obj bo) => objSet base k (.obj (deepMergeDict bo po))
      | _ => objSet base k (.obj po)
  | pv => objSet base k pv

end

/- ---------------------------------------------------------------------
`infra/traces_store.py` and `infra/memory_store.py`.

File contents are passed as `Option (List String)` (`none` = the backing
file does not exist, otherwise its lines); the write effect is a function
argument returning `Except`, so a failing disk write is an error value.
--------------------------------------------------------------------- -/

def singleQuoteChar : Char := Char.ofNat 39

/-- Rendering of a JSON number under Python `repr` (approximate: the
int/float distinction and float formatting are not modelled; no theorem
depends on this rendering). -/
def pyReprNum (q : ℚ) : String :=
  if q.den = 1 then toString q.num else toString q.num ++ "/" ++ toString q.den

mutual

/-- Python `repr` on JSON values (approximate in its string escaping and
number formatting; it only feeds the `"repr"` fields of normalized tool
calls, which no theorem inspects). -/
def pyRepr : Json → String
  | .null => "None"
  | .bool b => if b then "True" else "False"
  | .num q => pyReprNum q
  | .str s => String.singleton singleQuoteChar ++ s ++ String.singleton singleQuoteChar
  | .arr xs => "[" ++ pyReprSeq xs ++ "]"
  | .obj fs => String.singleton lbraceChar ++ pyReprFields fs ++ String.singleton rbraceChar

def pyReprSeq : List Json → String
  | [] => ""
  | [j] => pyRepr j
  | j :: rest => pyRepr j ++ ", " ++ pyReprSeq rest

def pyReprFields : List (String × Json) → String
  | [] => ""
  | [(k, j)] =>
      String.singleton singleQuoteChar ++ k ++ String.singleton singleQuoteChar
        ++ ": " ++ pyRepr j
  | (k, j) :: rest =>
      String.singleton singleQuoteChar ++ k ++ String.singleton singleQuoteChar
        ++ ": " ++ pyRepr j ++ ", " ++ pyReprFields rest

end

/-- Model of `_normalize_tool_calls`: `None` becomes `[]`, a dict is wrapped in a
list, a list keeps dicts, drops `None`s and wraps other elements as
`{"repr": repr(x)}`; a string is iterable in Python, so its characters are
wrapped; other scalars are not iterable and raise `TypeError`.  (Objects
with `__dict__` cannot occur among JSON values.) -/
def normalizeToolCalls : Json → Except String Json
  | .null => .ok (.arr [])
  | .obj o => .ok (.arr [.obj o])
  | .arr xs =>
      .ok (.arr (xs.filterMap (fun tc =>
        match tc with
        | .null => none
        | .obj o => some (.obj o)
        | other => some (.obj [("repr", .str (pyRepr other))]))))
  | .str s =>
      .ok (.arr (s.toList.map (fun c =>
        .obj [("repr", .str (pyRepr (.str (String.singleton c))))])))
  | _ => .error "TypeError: tool_calls object is not iterable"

/-- Model of `_normalize_session_graph`: falsy values become `{}`; JSON values are
always `json.dumps`-serializable, so anything else is returned unchanged. -/
def normalizeSessionGraph (g : Json) : Json :=
  if ! truthy g then .obj [] else g

/-- The dict literal `{k1: v1, k2: v2, **entry}`: the caller's pairs are
merged into the base by ordinary dict assignment, so a caller key equal to a
base key overwrites the base value in place. -/
def mergeIntoDict (base : JObj) (entry : JObj) : JObj :=
  entry.foldl (fun acc p => objSet acc p.1 p.2) base

/-- The record built by `log_trace` before writing: generated id and
timestamp, the caller's event spread over them, then normalized
`tool_calls` and `session_graph` fields. -/
def logTraceRecord (traceId ts : String) (event : JObj) : Except String JObj := do
  let e1 := mergeIntoDict [("trace_id", .str traceId), ("timestamp", .str ts)] event
  let e2 ←
    match objGet e1 "tool_calls" with
    | some tc => do
        let ntc ← normalizeToolCalls tc
        pure (objSet e1 "tool_calls" ntc)
    | none => pure (objSet e1 "tool_calls" (.arr []))
  let e3 :=
    match objGet e2 "session_graph" with
    | some g => objSet e2 "session_graph" (normalizeSessionGraph g)
    | none => objSet e2 "session_graph" (.obj [])
  pure e3

/-- Model of `log_trace(event)`: build the record, write it as one line, return the
generated trace id.  The generated id and timestamp and the write effect
are explicit arguments. -/
def log_trace (traceId ts : String) (write : JObj → Except String Unit)
    (event : JObj) : Except String String := do
  let record ← logTraceRecord traceId ts event
  write record
  pure traceId

/-- The record built by `append_memory`: generated id and timestamp with
the caller's fields spread over them. -/
def appendMemoryRecord (memoryId ts : String) (entry : JObj) : JObj :=
  mergeIntoDict [("memory_id", .str memoryId), ("timestamp", .str ts)] entry

/-- Model of `append_memory(entry)`: build the record, write it, return the id. -/
def append_memory (memoryId ts : String) (write : JObj → Except String Unit)
    (entry : JObj) : Except String String := do
  write (appendMemoryRecord memoryId ts entry)
  pure memoryId

/-- The synthetic record `load_traces` keeps for an unparseable line. -/
def corruptTraceRecord (strippedLine : String) : Json :=
  .obj [("_raw_line", .str strippedLine), ("error", .str "failed_to_parse_json")]

/-- Model of `load_traces()`: parse each stripped nonempty line independently; a line
that fails to parse is kept as a synthetic error record.  `none` models a
missing backing file. -/
def load_traces : Option (List String) → List Json
  | none => []
  | some lines =>
      lines.filterMap (fun line =>
        let t := pyStrip line
        if t = "" then none
        else
          match jsonParse t with
          | some j => some j
          | none => some (corruptTraceRecord t))

/-- Model of `rec.get(key)` in Python: only dicts have `.get`; anything else raises
`AttributeError`. -/
def recGet (rec : Json) (key : String) : Except String (Option Json) :=
  match rec with
  | .obj o => .ok (objGet o key)
  | _ => .error "AttributeError: no attribute get"

/-- Python `entries[-limit:]` guarded by `len(entries) > limit` (note that
`entries[-0:]` is the whole list). -/
def pyTailLimit (entries : List Json) : Option Nat → List Json
  | some lim =>
      if entries.length > lim then
        if lim = 0 then entries else entries.drop (entries.length - lim)
      else entries
  | none => entries

/-- Model of `load_memories(memory_type, aut_id, limit)`: parse each stripped
nonempty line; a line that fails to parse is skipped (`continue`); the
optional filters compare `rec.get(...)` against the given strings (a filter
argument that is `None` or empty is inactive); `limit` keeps the last
entries.  `none` for the file models a missing backing file. -/
def load_memories (memoryType autId : Option String) (limit : Option Nat) :
    Option (List String) → Except String (List Json)
  | none => .ok []
  | some lines => do
      let entries ← lines.foldlM
        (fun (acc : List Json) line => do
          let t := pyStrip line
          if t = "" then pure acc
          else
            match jsonParse t with
            | none => pure acc
            | some rec => do
                let skipType : Bool ←
                  match memoryType with
                  | some mt =>
                      if mt ≠ "" then do
                        let tv ← recGet rec "type"
                        pure (decide (tv ≠ some (.str mt)))
                      else pure false
                  | none => pure false
                if skipType then pure acc
                else do
                  let skipAut : Bool ←
                    match autId with
                    | some aid =>
                        if aid ≠ "" then do
                          let av ← recGet rec "aut_id"
                          pure (decide (av ≠ some (.str aid)))
                        else pure false
                    | none => pure false
                  if skipAut then pure acc
                  else pure (acc ++ [rec]))
        []
      pure (pyTailLimit entries limit)


/- ---------------------------------------------------------------------
`agentops/eval_engine/engine.py`.

External collaborators are explicit arguments: the AUT client is a function
producing a normalized response, eval packs are functions that may raise
(`Except`), the generated trace id / timestamps and the trace write effect
are passed in, and the golden CSV rows arrive already read (path resolution
and file reading are I/O wrappers outside the core).
--------------------------------------------------------------------- -/

/-- A golden CSV row (`csv.DictReader` output): string keys to string
values, in column order. -/
abbrev Row := List (String × String)

def rowGet : Row → String → Option String
  | [], _ => none
  | (k, v) :: rest, key => if k = key then some v else rowGet rest key

def rowSet : Row → String → String → Row
  | [], key, v => [(key, v)]
  | (k, w) :: rest, key, v =>
      if k = key then (k, v) :: rest else (k, w) :: rowSet rest key v

def rowKeys (r : Row) : List String := r.map (·.1)

/-- Normalized response from the AUT (`core/aut_client.py`); tool-call
objects are modelled as JSON values. -/
structure AUTResponse where
  answer : String
  latency_ms : Option ℚ
  session_graph : Option JObj
  tool_calls : List Json
deriving Repr, DecidableEq

/-- Full evaluation record for a single testcase (`eval_engine/models.py`). -/
structure EvalRecord where
  eval_id : String
  aut_id : String
  version_id : String
  capability : String
  input : Row
  output : JObj
  aut_response_meta : JObj
  llm_metrics : List MetricResult
  rule_metrics : List MetricResult
deriving Repr, DecidableEq

/-- An eval pack: `evaluate(testcase, aut_response, aut_spec)`, which may
raise (`Except.error`) or return `None` (`none`) instead of a metric list. -/
abbrev Pack := Row → AUTResponse → Except String (Option (List MetricResult))

def optStrToJson : Option String → Json
  | some s => .str s
  | none => .null

def optNumToJson : Option ℚ → Json
  | some q => .num q
  | none => .null

def optObjToJson : Option JObj → Json
  | some o => .obj o
  | none => .null

/-- Python string interpolation of an optional value (`None` prints as
`"None"`), used for `testcase.get('id')` inside the `eval_id` f-string. -/
def pyOptStr : Option String → String
  | some s => s
  | none => "None"

/-- Model of `_build_request_payload`: parse the `input_json` column (empty or
missing means `"\x7b\x7d"`); a parse failure falls back to an empty request. -/
def buildRequestPayload (tc : Row) : Json :=
  let raw :=
    match rowGet tc "input_json" with
    | some s => if s = "" then "\x7b\x7d" else s
    | none => "\x7b\x7d"
  match jsonParse raw with
  | some j => j
  | none => .obj []

/-- The pack loop of `_run_single_eval_case`: run each pack in order and
concatenate the results (`pack_results or []`).  A raised exception
propagates: there is no `try`/`except` around `pack.evaluate`. -/
def collectPackMetrics (packs : List Pack) (tc : Row) (resp : AUTResponse) :
    Except String (List MetricResult) :=
  packs.foldlM
    (fun acc pack => do
      let rs ← pack tc resp
      pure (acc ++ rs.getD []))
    []

/-- Model of `_run_single_eval_case`: build the payload, call the AUT, run all packs,
partition the metrics by their `details["type"]` tag, build the record, and
log a trace event (uncaught: a trace write failure propagates). -/
def run_single_eval_case (autId : String) (runQuery : Json → AUTResponse)
    (packs : List Pack) (traceId traceTs : String)
    (writeTrace : JObj → Except String Unit) (tc : Row) (versionId : String) :
    Except String EvalRecord := do
  let payload := buildRequestPayload tc
  let resp := runQuery payload
  let metricResults ← collectPackMetrics packs tc resp
  let llm := metricResults.filter (fun m => decide (objGet m.details "type" = some (.str "llm")))
  let rule := metricResults.filter (fun m => decide (objGet m.details "type" = some (.str "rule")))
  let evalId := autId ++ ":" ++ versionId ++ ":" ++ pyOptStr (rowGet tc "id")
  let record : EvalRecord :=
    { eval_id := evalId
      aut_id := autId
      version_id := versionId
      capability := "create_itinerary"
      input := tc
      output := [("answer", .str resp.answer)]
      aut_response_meta :=
        [("latency_ms", optNumToJson resp.latency_ms),
         ("session_graph", optObjToJson resp.session_graph),
         ("tool_calls", .arr resp.tool_calls)]
      llm_metrics := llm
      rule_metrics := rule }
  let judgeScores := (llm.filter (fun m => decide (m.name = "judge_score"))).map (·.value)
  let scoreForTrace := judgeScores.head?
  let reasoningForTrace := llm.findSome? (fun m =>
    if m.name = "judge_score" then objGet m.details "reasoning" else none)
  let traceEvent : JObj :=
    [("version_id", .str versionId),
     ("aut_id", .str autId),
     ("testcase_id", optStrToJson (rowGet tc "id")),
     ("input_json", optStrToJson (rowGet tc "input_json")),
     ("answer", .str resp.answer),
     ("latency_ms", optNumToJson resp.latency_ms),
     ("eval_score", scoreForTrace.getD .null),
     ("eval_reasoning", reasoningForTrace.getD .null)]
  let _ ← log_trace traceId traceTs writeTrace traceEvent
  pure record

/-- Stable ascending insertion into a sorted list (an element goes after
the entries it ties with), matching Python `sorted`. -/
def insertSorted (x : ℚ) : List ℚ → List ℚ
  | [] => [x]
  | y :: ys => if x < y then x :: y :: ys else y :: insertSorted x ys

/-- Python `sorted` on rationals: stable ascending sort. -/
def pySorted (l : List ℚ) : List ℚ := l.foldr insertSorted []

/-- Model of `_p95(values)`: nearest-rank 95th percentile, `int(0.95 * (n - 1))` as
the zero-based index into the ascending sort.  The index is modelled as the
exact `19 * (n - 1) / 20` (floor); Python evaluates `int(0.95 * (n - 1))`
in binary floating point, which coincides with the exact floor for every
list length up to two million. -/
def p95 (values : List ℚ) : Option ℚ :=
  if values = [] then none
  else (pySorted values)[(19 * (values.length - 1)) / 20]?

/-- Model of `statistics.mean` on rationals. -/
def pyMean (l : List ℚ) : ℚ := l.sum / (l.length : ℚ)

/-- The judge scores collected by the aggregation loop of `run_full_eval`:
`float(m.value)` of every `judge_score` metric, skipping values whose
conversion raises. -/
def judgeScoresAll (records : List EvalRecord) : List ℚ :=
  records.flatMap (fun r =>
    r.llm_metrics.filterMap (fun m =>
      if m.name = "judge_score" then floatConv m.value else none))

/-- The latencies collected by the aggregation loop: numeric
`latency_ms` entries of the response metadata. -/
def latenciesAll (records : List EvalRecord) : List ℚ :=
  records.filterMap (fun r =>
    match objGet r.aut_response_meta "latency_ms" with
    | some (.num q) => some q
    | _ => none)

/-- The boolean `task_success` values collected by the aggregation loop
(`bool(m.value)` cannot raise). -/
def taskSuccessAll (records : List EvalRecord) : List Bool :=
  records.flatMap (fun r =>
    r.rule_metrics.filterMap (fun m =>
      if m.name = "task_success" then some (truthy m.value) else none))

/-- The summary dict returned by `run_full_eval` on success. -/
structure EvalSummary where
  aut_id : String
  version_id : String
  num_testcases : Nat
  avg_judge_score : Option ℚ
  judge_score_p95 : Option ℚ
  latency_ms_p95 : Option ℚ
  task_success_rate : Option ℚ
  records : List EvalRecord
deriving Repr, DecidableEq

/-- Result type of `run_full_eval`: either the tagged error dict (no
testcases) or a summary. -/
inductive EvalOutcome where
  | errorResult (error goldenPath : String)
  | summary (s : EvalSummary)
deriving Repr, DecidableEq

/-- Model of `version_id or self.aut_spec.version or "v1"` (empty strings are
falsy). -/
def resolveTargetVersion (versionId : Option String) (specVersion : String) : String :=
  match versionId with
  | some v => if v ≠ "" then v else (if specVersion ≠ "" then specVersion else "v1")
  | none => if specVersion ≠ "" then specVersion else "v1"

/-- Model of `run_full_eval(version_id)`: filter loaded rows to those with a truthy
id (as `_load_testcases` does), return the tagged error result when none
remain, else evaluate every testcase in order — a memory-store persistence
failure (`recordOutcome`) is caught and logged, while a trace write failure
inside `run_single_eval_case` propagates — and aggregate. -/
def run_full_eval (autId specVersion : String) (runQuery : Json → AUTResponse)
    (packs : List Pack) (traceId traceTs : String)
    (writeTrace : JObj → Except String Unit)
    (recordOutcome : EvalRecord → Except String Unit)
    (goldenPath : String) (loadedRows : List Row) (versionId : Option String) :
    Except String EvalOutcome := do
  let target := resolveTargetVersion versionId specVersion
  let testcases := loadedRows.filter (fun r =>
    match rowGet r "id" with
    | some s => decide (s ≠ "")
    | none => false)
  if testcases = [] then
    pure (.errorResult "No testcases loaded from golden set." goldenPath)
  else do
    let records ← testcases.foldlM
      (fun (acc : List EvalRecord) tc => do
        let r ← run_single_eval_case autId runQuery packs traceId traceTs writeTrace tc target
        -- `try: self.memory.record_eval_outcome(record) except Exception: log`
        let _ :=
          match recordOutcome r with
          | .ok _ => ()
          | .error _ => ()
        pure (acc ++ [r]))
      []
    let js := judgeScoresAll records
    let lats := latenciesAll records
    let successes := taskSuccessAll records
    pure (.summary
      { aut_id := autId
        version_id := target
        num_testcases := records.length
        avg_judge_score := if js = [] then none else some (pyMean js)
        judge_score_p95 := p95 js
        latency_ms_p95 := p95 lats
        task_success_rate :=
          if successes = [] then none
          else some ((successes.countP id : ℚ) / (successes.length : ℚ))
        records := records })

/- ---------------------------------------------------------------------
`agentops/improvement/apply_changeset.py`: golden CSV growth.

The CSV file is passed as its existence flag plus the rows a
`csv.DictReader` would yield; the outcome records whether a header line was
written and which normalized rows were appended.  A raised `ValueError`
(missing required field) is `Except.error`, in which case nothing is
written.
--------------------------------------------------------------------- -/

structure CsvFileState where
  present : Bool
  rows : List Row
deriving Repr, DecidableEq

/-- Model of `_read_existing_testcases`: `[]` if the file does not exist, else the
rows whose `id` is truthy. -/
def readExistingTestcases (s : CsvFileState) : List Row :=
  if s.present then
    s.rows.filter (fun r =>
      match rowGet r "id" with
      | some v => decide (v ≠ "")
      | none => false)
  else []

/-- Model of `_next_id(existing_rows)`: one more than the largest
integer-parseable id (non-numeric ids are ignored; the running maximum
starts at 0). -/
def nextId (existingRows : List Row) : Int :=
  (existingRows.foldl
    (fun maxId r =>
      match rowGet r "id" with
      | none => maxId
      | some rid =>
          match pyIntOfString rid with
          | some num => if num > maxId then num else maxId
          | none => maxId)
    0) + 1

/-- What `append_new_testcases` wrote: whether a header line was emitted
(only when the file did not exist), the final field-name list, and the
normalized rows appended. -/
structure AppendOutcome where
  headerWritten : Bool
  header : List String
  written : List Row
deriving Repr, DecidableEq

def defaultGoldenFields : List String :=
  ["id", "input_json", "judge_question", "expected_behavior"]

def defaultRequiredFields : List String :=
  ["input_json", "judge_question", "expected_behavior"]

/-- The per-testcase normalization step of `append_new_testcases`: assign
an id when missing, copy the required fields (raising on a missing one),
then carry over extra fields, extending the field names dynamically.
Returns the normalized row, the updated field names and next id. -/
def buildNewRow (requiredFields fieldnames : List String) (nid : Int) (tc : Row) :
    Except String (Row × List String × Int) := do
  let idAndNext :=
    match rowGet tc "id" with
    | some v => (v, nid)
    | none => (toString nid, nid + 1)
  let row0 : Row := [("id", idAndNext.1)]
  let row1 ← requiredFields.foldlM
    (fun row f =>
      match rowGet tc f with
      | some v => pure (rowSet row f v)
      | none => Except.error ("New testcase missing required field: " ++ f))
    row0
  let rowAndFields := tc.foldl
    (fun (acc : Row × List String) p =>
      if (rowGet acc.1 p.1).isSome then acc
      else
        (acc.1 ++ [(p.1, p.2)],
         if p.1 ∈ acc.2 then acc.2 else acc.2 ++ [p.1]))
    (row1, fieldnames)
  pure (rowAndFields.1, rowAndFields.2, idAndNext.2)

/-- The initial `fieldnames` list of `append_new_testcases`: the keys of the
first existing row when the golden file has usable rows, else the default
golden columns. -/
def initialFieldnames (state : CsvFileState) : List String :=
  match readExistingTestcases state with
  | r :: _ => rowKeys r
  | [] => defaultGoldenFields

/-- The keys of a row that are absent from the writer's field names: the
wrong fields that `csv.DictWriter` (with its default extras action of
raising) rejects in `writerow`. -/
def wrongFields (fieldnames : List String) (r : Row) : List String :=
  (rowKeys r).filter (fun k => decide (k ∉ fieldnames))

/-- Model of `append_new_testcases(golden_csv_path, new_testcases, required_fields)`:
an empty testcase list writes nothing; otherwise all rows are normalized
and validated first (any missing required field raises before any write);
the `csv.DictWriter` built over the final field names then raises
ValueError at `writerow` for a row carrying a key outside them (its
default extras action). The id and required keys are copied into every
row but never appended to `fieldnames` (the extras loop skips keys already
in the row), so this fires exactly when the existing header lacks an id
or required column — then every row is rejected, the first `writerow`
raises, and nothing is appended (the header too was skipped, the file
existing). Otherwise a header is written only when the file did not
exist, followed by the rows. -/
def append_new_testcases (state : CsvFileState) (newTestcases : List Row)
    (requiredFields : Option (List String)) : Except String AppendOutcome :=
  if newTestcases = [] then .ok ⟨false, [], []⟩
  else
    let nid0 := nextId (readExistingTestcases state)
    let fieldnames0 := initialFieldnames state
    let required :=
      match requiredFields with
      | some l => if l = [] then defaultRequiredFields else l
      | none => defaultRequiredFields
    do
      let result ← newTestcases.foldlM
        (fun (acc : List Row × List String × Int) tc => do
          let step ← buildNewRow required acc.2.1 acc.2.2 tc
          pure (acc.1 ++ [step.1], step.2.1, step.2.2))
        ([], fieldnames0, nid0)
      let _ ← result.1.foldlM
        (fun (_ : Unit) row =>
          if wrongFields result.2.1 row = [] then pure ()
          else Except.error ("dict contains fields not in fieldnames: "
            ++ String.intercalate ", " (wrongFields result.2.1 row)))
        ()
      pure { headerWritten := ! state.present
             header := result.2.1
             written := result.1 }



/- ---------------------------------------------------------------------
Reference definitions written from the specification's words, to be
compared with the source embeddings above.
--------------------------------------------------------------------- -/

/-- The nearest-rank 95th percentile as the spec words it:
`sorted(L)[floor(0.95 * (len(L) - 1))]`, with `0.95` the exact rational
`19/20` and `floor` the rational floor (reference definition for `p95`). -/
def p95Spec (values : List ℚ) : Option ℚ :=
  if values = [] then none
  else (pySorted values)[(⌊(19 / 20 : ℚ) * ((values.length - 1 : ℕ) : ℚ)⌋₊)]?

/-- The judge-output pipeline exactly as the spec claims it for every judge
output (reference definition, not source): remove a leading and trailing
code-fence line if present, then JSON-parse; if parsing fails, search the
raw text for a standalone digit 1-5 as the score, else score 0, with the
raw text as rationale. -/
def claimedJudgeResolve (text : String) : ℚ × Json :=
  match jsonParse (stripCodeFences text) with
  | some (.obj parsed) =>
      match floatConv ((objGet parsed "score").getD (.num 0)) with
      | some q => (q, (objGet parsed "rationale").getD (.str text))
      | none => travelJudgeFallback text
  | _ => travelJudgeFallback text

/- ---------------------------------------------------------------------
Helper lemmas about dict operations.
--------------------------------------------------------------------- -/

theorem objGet_objSet_self (o : JObj) (k : String) (v : Json) :
    objGet (objSet o k v) k = some v := by
  induction o with
  | nil => simp [objSet, objGet]
  | cons p rest ih =>
      by_cases h : p.1 = k
      · simp [objSet, objGet, h]
      · simp [objSet, objGet, h, ih]

theorem objGet_objSet_ne (o : JObj) (k k' : String) (v : Json) (h : k' ≠ k) :
    objGet (objSet o k v) k' = objGet o k' := by
  induction o with
  | nil =>
      simp only [objSet, objGet]
      rw [if_neg (fun he => h he.symm)]
  | cons p rest ih =>
      obtain ⟨pk, pv⟩ := p
      by_cases hk : pk = k
      · subst hk
        simp only [objSet, if_pos rfl, objGet]
        rw [if_neg (fun he => h he.symm), if_neg (fun he => h he.symm)]
      · simp only [objSet, if_neg hk, objGet, ih]

theorem objGet_eq_none_of_notMem (o : JObj) (k : String)
    (h : ∀ p ∈ o, p.1 ≠ k) : objGet o k = none := by
  induction o with
  | nil => rfl
  | cons p rest ih =>
      have hp : p.1 ≠ k := h p (by simp)
      simp [objGet, hp]
      exact ih (fun q hq => h q (by simp [hq]))

theorem rowGet_rowSet_self (o : Row) (k : String) (v : String) :
    rowGet (rowSet o k v) k = some v := by
  induction o with
  | nil => simp [rowSet, rowGet]
  | cons p rest ih =>
      by_cases h : p.1 = k
      · simp [rowSet, rowGet, h]
      · simp [rowSet, rowGet, h, ih]

theorem rowGet_rowSet_ne (o : Row) (k k' : String) (v : String) (h : k' ≠ k) :
    rowGet (rowSet o k v) k' = rowGet o k' := by
  induction o with
  | nil =>
      simp only [rowSet, rowGet]
      rw [if_neg (fun he => h he.symm)]
  | cons p rest ih =>
      obtain ⟨pk, pv⟩ := p
      by_cases hk : pk = k
      · subst hk
        simp only [rowSet, if_pos rfl, rowGet]
        rw [if_neg (fun he => h he.symm), if_neg (fun he => h he.symm)]
      · simp only [rowSet, if_neg hk, rowGet, ih]

theorem rowGet_append_of_isSome (r ext : Row) (k : String)
    (h : (rowGet r k).isSome) : rowGet (r ++ ext) k = rowGet r k := by
  induction r with
  | nil => simp [rowGet] at h
  | cons p rest ih =>
      by_cases hk : p.1 = k
      · simp [rowGet, hk]
      · simp [rowGet, hk] at h ⊢
        exact ih h

/- ---------------------------------------------------------------------
Lemmas about the dict-literal merge (`{base..., **entry}`), for the two
record stores.
--------------------------------------------------------------------- -/

theorem mergeIntoDict_get_of_none (entry : JObj) (b : JObj) (k : String)
    (h : objGet entry k = none) :
    objGet (mergeIntoDict b entry) k = objGet b k := by
  induction entry generalizing b with
  | nil => rfl
  | cons p rest ih =>
      by_cases hp : p.1 = k
      · simp [objGet, hp] at h
      · simp [objGet, hp] at h
        show objGet (mergeIntoDict (objSet b p.1 p.2) rest) k = objGet b k
        rw [ih (objSet b p.1 p.2) h, objGet_objSet_ne _ _ _ _ (fun hh => hp hh.symm)]

theorem mergeIntoDict_get_of_some (entry : JObj) (b : JObj) (k : String) (v : Json)
    (hnd : (entry.map Prod.fst).Nodup) (h : objGet entry k = some v) :
    objGet (mergeIntoDict b entry) k = some v := by
  induction entry generalizing b with
  | nil => simp [objGet] at h
  | cons p rest ih =>
      obtain ⟨pk, pv⟩ := p
      have hnd2 : (pk :: rest.map Prod.fst).Nodup := by
        simpa only [List.map_cons] using hnd
      have hnd' := List.nodup_cons.mp hnd2
      by_cases hp : pk = k
      · simp only [objGet, if_pos hp] at h
        have hv : pv = v := by injection h
        subst hv
        subst hp
        show objGet (mergeIntoDict (objSet b pk pv) rest) pk = some pv
        have hrest : objGet rest pk = none := by
          apply objGet_eq_none_of_notMem
          intro q hq hqk
          exact hnd'.1 (hqk ▸ List.mem_map_of_mem Prod.fst hq)
        rw [mergeIntoDict_get_of_none rest _ pk hrest, objGet_objSet_self]
      · simp only [objGet, if_neg hp] at h
        show objGet (mergeIntoDict (objSet b pk pv) rest) k = some v
        exact ih _ hnd'.2 h

/- ---------------------------------------------------------------------
Lemmas about the dot-path merge, for the config-patch claims.
--------------------------------------------------------------------- -/

theorem getPath_obj_single (o : JObj) (k : String) :
    getPath (.obj o) [k] = objGet o k := by
  cases h : objGet o k <;> simp [getPath, h]

theorem getPath_setByPathAux_self :
    ∀ (parts : List String) (c : JObj) (v : Json), parts ≠ [] →
      getPath (.obj (setByPathAux c parts v)) parts = some v
  | [], _, _, h => absurd rfl h
  | [k], c, v, _ => by
      simp [setByPathAux, getPath_obj_single, objGet_objSet_self]
  | k :: k' :: rest, c, v, _ => by
      show getPath (.obj (objSet c k (.obj (setByPathAux _ (k' :: rest) v)))) (k :: k' :: rest) = some v
      simp only [getPath, objGet_objSet_self]
      exact getPath_setByPathAux_self (k' :: rest) _ v (by simp)

theorem getPath_setByPathAux_diverge :
    ∀ (parts : List String) (c : JObj) (q : List String) (v : Json), parts ≠ [] →
      pathLe parts q = false → pathLe q parts = false →
      getPath (.obj (setByPathAux c parts v)) q = getPath (.obj c) q
  | [], _, _, _, h, _, _ => absurd rfl h
  | k :: ptail, c, [], v, _, _, hq => by simp [pathLe] at hq
  | [k], c, k0 :: qrest, v, _, hp, hq => by
      by_cases hk : k0 = k
      · subst hk
        simp [pathLe] at hp
      · show getPath (.obj (objSet c k v)) (k0 :: qrest) = getPath (.obj c) (k0 :: qrest)
        simp only [getPath, objGet_objSet_ne c k k0 v hk]
  | k :: k' :: rest, c, k0 :: qrest, v, _, hp, hq => by
      by_cases hk : k0 = k
      · subst hk
        simp only [pathLe, decide_eq_true_eq, Bool.and_eq_false_iff] at hp hq
        have hp' : pathLe (k' :: rest) qrest = false := by
          rcases hp with h | h
          · simp at h
          · exact h
        have hq' : pathLe qrest (k' :: rest) = false := by
          rcases hq with h | h
          · simp at h
          · exact h
        have hqne : qrest ≠ [] := by
          intro he
          subst he
          simp [pathLe] at hq'
        show getPath (.obj (objSet c k0 (.obj (setByPathAux _ (k' :: rest) v)))) (k0 :: qrest) =
          getPath (.obj c) (k0 :: qrest)
        simp only [getPath, objGet_objSet_self]
        cases hg : objGet c k0 with
        | none =>
            rw [getPath_setByPathAux_diverge (k' :: rest) [] qrest v (by simp) hp' hq']
            cases qrest with
            | nil => exact absurd rfl hqne
            | cons a as => simp [getPath, objGet]
        | some j =>
            cases j with
            | obj m =>
                simpa [hg] using
                  getPath_setByPathAux_diverge (k' :: rest) m qrest v (by simp) hp' hq'
            | null =>
                rw [getPath_setByPathAux_diverge (k' :: rest) [] qrest v (by simp) hp' hq']
                cases qrest with
                | nil => exact absurd rfl hqne
                | cons a as => simp [getPath, objGet]
            | bool b =>
                rw [getPath_setByPathAux_diverge (k' :: rest) [] qrest v (by simp) hp' hq']
                cases qrest with
                | nil => exact absurd rfl hqne
                | cons a as => simp [getPath, objGet]
            | num n =>
                rw [getPath_setByPathAux_diverge (k' :: rest) [] qrest v (by simp) hp' hq']
                cases qrest with
                | nil => exact absurd rfl hqne
                | cons a as => simp [getPath, objGet]
            | str s =>
                rw [getPath_setByPathAux_diverge (k' :: rest) [] qrest v (by simp) hp' hq']
                cases qrest with
                | nil => exact absurd rfl hqne
                | cons a as => simp [getPath, objGet]
            | arr xs =>
                rw [getPath_setByPathAux_diverge (k' :: rest) [] qrest v (by simp) hp' hq']
                cases qrest with
                | nil => exact absurd rfl hqne
                | cons a as => simp [getPath, objGet]
      · show getPath (.obj (objSet c k (.obj (setByPathAux _ (k' :: rest) v)))) (k0 :: qrest) =
          getPath (.obj c) (k0 :: qrest)
        simp only [getPath, objGet_objSet_ne c k k0 _ hk]

theorem getPath_setByPathAux_of_le :
    ∀ (parts : List String) (c : JObj) (q : List String) (v : Json), parts ≠ [] →
      pathLe q parts = true →
      (getPath (.obj (setByPathAux c parts v)) q).isSome
  | [], _, _, _, h, _ => absurd rfl h
  | k :: ptail, c, [], v, _, _ => by simp [getPath]
  | [k], c, k0 :: qrest, v, _, hq => by
      simp only [pathLe, Bool.and_eq_true, decide_eq_true_eq] at hq
      obtain ⟨hk, hrest⟩ := hq
      subst hk
      have : qrest = [] := by
        cases qrest with
        | nil => rfl
        | cons a as => simp [pathLe] at hrest
      subst this
      simp [setByPathAux, getPath_obj_single, objGet_objSet_self]
  | k :: k' :: rest, c, k0 :: qrest, v, _, hq => by
      simp only [pathLe, Bool.and_eq_true, decide_eq_true_eq] at hq
      obtain ⟨hk, hrest⟩ := hq
      subst hk
      show (getPath (.obj (objSet c k0 (.obj (setByPathAux _ (k' :: rest) v)))) (k0 :: qrest)).isSome
      simp only [getPath, objGet_objSet_self]
      cases qrest with
      | nil => simp [getPath]
      | cons a as =>
          exact getPath_setByPathAux_of_le (k' :: rest) _ (a :: as) v (by simp) hrest


/- ---------------------------------------------------------------------
Sorting and percentile lemmas.
--------------------------------------------------------------------- -/

theorem insertSorted_length (x : ℚ) (l : List ℚ) :
    (insertSorted x l).length = l.length + 1 := by
  induction l with
  | nil => rfl
  | cons y ys ih => by_cases h : x < y <;> simp [insertSorted, h, ih]

theorem pySorted_length (l : List ℚ) : (pySorted l).length = l.length := by
  induction l with
  | nil => rfl
  | cons x xs ih =>
      show (insertSorted x (pySorted xs)).length = xs.length + 1
      rw [insertSorted_length, ih]

theorem natFloor_p95_index (m : ℕ) :
    ⌊(19 / 20 : ℚ) * (m : ℚ)⌋₊ = 19 * m / 20 := by
  have h : (19 / 20 : ℚ) * (m : ℚ) = ((19 * m : ℕ) : ℚ) / ((20 : ℕ) : ℚ) := by
    push_cast
    ring
  rw [h, Nat.floor_div_nat, Nat.floor_natCast]

/-- C7: on a nonempty numeric list the engine's `_p95` is the nearest-rank
percentile of the spec — ascending sort, zero-indexed floor index
`floor(0.95 * (n - 1))`, no interpolation — and always yields a value; the
empty list yields `none`; `p95([1..10]) = 9`. -/
theorem c7_p95_nearest_rank (L : List ℚ) (h : L ≠ []) :
    p95 L = p95Spec L ∧ (p95 L).isSome ∧ p95 ([] : List ℚ) = none ∧
    p95 [1, 2, 3, 4, 5, 6, 7, 8, 9, 10] = some 9 := by
  refine ⟨?_, ?_, rfl, by decide⟩
  · unfold p95 p95Spec
    rw [if_neg h, if_neg h, natFloor_p95_index]
  · unfold p95
    rw [if_neg h]
    have h2 : 0 < L.length := List.length_pos.mpr h
    have hlen : (19 * (L.length - 1)) / 20 < (pySorted L).length := by
      rw [pySorted_length]
      have h1 : 19 * (L.length - 1) / 20 ≤ L.length - 1 :=
        calc 19 * (L.length - 1) / 20
            ≤ 20 * (L.length - 1) / 20 := Nat.div_le_div_right (by omega)
          _ = L.length - 1 := Nat.mul_div_cancel_left _ (by norm_num)
      omega
    rw [List.getElem?_eq_getElem hlen]
    rfl

/-- Witness for `c7_p95_nearest_rank` at the singleton list `[3]`. -/
theorem c7_p95_nearest_rank_witness :
    ([(3 : ℚ)] ≠ []) ∧ (p95 [(3 : ℚ)]).isSome :=
  ⟨by decide, (c7_p95_nearest_rank [(3 : ℚ)] (by decide)).2.1⟩

/- ---------------------------------------------------------------------
C5 and C6: the config-patch merge.
--------------------------------------------------------------------- -/

/-- C5: merging one `set` patch with dot-path `"a.b.c"` into any config
plants the value at `a.b.c`, leaves every top-level key other than `"a"`
with an unchanged value, and never removes a key path that does not extend
the patch path; the merge folds over `deepcopy` of the input, so in the
value semantics the input config is untouched (`deepcopy_eq`). -/
theorem c5_single_set_patch (c : JObj) (v : Json) :
    ∃ m, apply_config_patches c [⟨"a.b.c", "set", v⟩] = .ok m ∧
      getPath (.obj m) ["a", "b", "c"] = some v ∧
      (∀ k, k ≠ "a" → objGet m k = objGet c k) ∧
      (∀ q, pathLe ["a", "b", "c"] q = false →
        (getPath (.obj c) q).isSome → (getPath (.obj m) q).isSome) := by
  refine ⟨setByPathAux c ["a", "b", "c"] v, ?_, ?_, ?_, ?_⟩
  · have hsplit : pySplitDot "a.b.c" = ["a", "b", "c"] := by rfl
    simp [apply_config_patches, List.foldlM, deepcopyObj_eq, setByPath, hsplit]
  · exact getPath_setByPathAux_self _ _ _ (by simp)
  · intro k hk
    have hdiv := getPath_setByPathAux_diverge ["a", "b", "c"] c [k] v (by simp)
      (by simp [pathLe]) (by simp [pathLe, hk])
    rw [getPath_obj_single, getPath_obj_single] at hdiv
    exact hdiv
  · intro q hpq hsome
    by_cases hq : pathLe q ["a", "b", "c"] = true
    · exact getPath_setByPathAux_of_le _ _ _ _ (by simp) hq
    · have hdiv := getPath_setByPathAux_diverge ["a", "b", "c"] c q v (by simp) hpq
        (by simpa using hq)
      rw [hdiv]
      exact hsome

/-- Witness for `c5_single_set_patch` on the config `{"z": 7}`. -/
theorem c5_single_set_patch_witness :
    ("z" : String) ≠ "a" ∧
    ∃ m, apply_config_patches [("z", Json.num 7)] [⟨"a.b.c", "set", .bool true⟩] = .ok m ∧
      objGet m "z" = objGet [("z", Json.num 7)] "z" := by
  obtain ⟨m, h1, _, h3, _⟩ := c5_single_set_patch [("z", Json.num 7)] (.bool true)
  exact ⟨by decide, m, h1, h3 "z" (by decide)⟩

/-- C6: merging any config with an empty patch list returns `ok` of a
structural copy (`deepcopy`) of the config, which is deep-equal to it; in
the pure value model the copy is the identity, and the result shares no
structure with a mutable original by construction of `deepcopy`.  The
recursive `_deep_merge_dict` with an empty patch dict likewise returns the
base unchanged. -/
theorem c6_empty_patches_identity (c : JObj) :
    apply_config_patches c [] = .ok (deepcopyObj c) ∧ deepcopyObj c = c ∧
    deepMergeDict c [] = c := by
  exact ⟨rfl, deepcopyObj_eq c, rfl⟩


/- ---------------------------------------------------------------------
C1 and C4: failure propagation in the evaluation engine.
--------------------------------------------------------------------- -/

theorem packFold_append_error (tc : Row) (resp : AUTResponse) (bad : Pack)
    (rest : List Pack) (e : String) (hb : bad tc resp = .error e)
    (good : List Pack) (acc : List MetricResult)
    (hg : ∀ p ∈ good, ∃ rs, p tc resp = .ok rs) :
    List.foldlM
      (fun acc pack => do
        let rs ← pack tc resp
        pure (acc ++ rs.getD []))
      acc (good ++ bad :: rest) = .error e := by
  induction good generalizing acc with
  | nil =>
      simp only [List.nil_append, List.foldlM_cons, hb]
      rfl
  | cons p good' ih =>
      obtain ⟨rs, hp⟩ := hg p (by simp)
      simp only [List.cons_append, List.foldlM_cons, hp]
      exact ih _ (fun q hq => hg q (by simp [hq]))

theorem collectPackMetrics_append_error (good : List Pack) (bad : Pack)
    (rest : List Pack) (tc : Row) (resp : AUTResponse) (e : String)
    (hg : ∀ p ∈ good, ∃ rs, p tc resp = .ok rs) (hb : bad tc resp = .error e) :
    collectPackMetrics (good ++ bad :: rest) tc resp = .error e :=
  packFold_append_error tc resp bad rest e hb good [] hg

theorem collectPackMetrics_ok (packs : List Pack) (tc : Row) (resp : AUTResponse)
    (hp : ∀ p ∈ packs, ∃ rs, p tc resp = .ok rs) :
    ∃ ms, collectPackMetrics packs tc resp = .ok ms := by
  suffices h : ∀ (ps : List Pack) (acc : List MetricResult),
      (∀ p ∈ ps, ∃ rs, p tc resp = .ok rs) →
      ∃ ms, List.foldlM
        (fun acc pack => do
          let rs ← pack tc resp
          pure (acc ++ rs.getD []))
        acc ps = .ok ms by
    exact h packs [] hp
  intro ps
  induction ps with
  | nil => exact fun acc _ => ⟨acc, rfl⟩
  | cons p ps' ih =>
      intro acc hps
      obtain ⟨rs, hpr⟩ := hps p (by simp)
      obtain ⟨ms, hms⟩ := ih (acc ++ rs.getD []) (fun q hq => hps q (by simp [hq]))
      refine ⟨ms, ?_⟩
      simp only [List.foldlM_cons, hpr]
      exact hms

theorem run_single_eval_case_error_of_packs (autId versionId traceId traceTs : String)
    (runQuery : Json → AUTResponse) (writeTrace : JObj → Except String Unit)
    (packs : List Pack) (tcRow : Row) (e : String)
    (hc : collectPackMetrics packs tcRow (runQuery (buildRequestPayload tcRow)) = .error e) :
    run_single_eval_case autId runQuery packs traceId traceTs writeTrace tcRow versionId
      = .error e := by
  simp only [run_single_eval_case, hc]
  rfl

/-- C1 (amended): a `ScoringPack` that raises during `evaluate` is *not*
caught by `_run_single_eval_case`: whenever the packs before it return
normally, the exception propagates out of the case, so no `EvalRecord` (and
no other pack's `MetricResult`) is produced for that testcase. -/
theorem c1_scoring_pack_exception_propagates (autId versionId traceId traceTs : String)
    (runQuery : Json → AUTResponse) (writeTrace : JObj → Except String Unit)
    (tcRow : Row) (good : List Pack) (bad : Pack) (rest : List Pack) (e : String)
    (hg : ∀ p ∈ good, ∃ rs, p tcRow (runQuery (buildRequestPayload tcRow)) = .ok rs)
    (hb : bad tcRow (runQuery (buildRequestPayload tcRow)) = .error e) :
    run_single_eval_case autId runQuery (good ++ bad :: rest) traceId traceTs
      writeTrace tcRow versionId = .error e :=
  run_single_eval_case_error_of_packs autId versionId traceId traceTs runQuery
    writeTrace (good ++ bad :: rest) tcRow e
    (collectPackMetrics_append_error good bad rest tcRow _ e hg hb)

/-- Witness for `c1_scoring_pack_exception_propagates`: one well-behaved
rule pack followed by a raising pack. -/
theorem c1_scoring_pack_exception_propagates_witness :
    run_single_eval_case "travel" (fun _ => ⟨"ans", none, none, []⟩)
      ([fun _ _ => .ok (some [⟨"task_success", .bool true, [("type", .str "rule")]⟩])]
        ++ (fun _ _ => .error "boom") :: [])
      "tid" "ts" (fun _ => .ok ()) [("id", "1")] "v1" = .error "boom" :=
  c1_scoring_pack_exception_propagates "travel" "v1" "tid" "ts"
    (fun _ => ⟨"ans", none, none, []⟩) (fun _ => .ok ()) [("id", "1")]
    [fun _ _ => .ok (some [⟨"task_success", .bool true, [("type", .str "rule")]⟩])]
    (fun _ _ => .error "boom") [] "boom"
    (by intro p hp
        simp only [List.mem_singleton] at hp
        subst hp
        exact ⟨_, rfl⟩)
    rfl

/-- C1 (counterexample to the claim as stated): a batch of two testcases
with one well-behaved pack (producing a rule metric) and one raising pack
aborts with the exception — no `EvalRecord` carries the first pack's
metric, and the second testcase is never evaluated, where the claim
promises a record with the other packs' metrics and a continuing batch. -/
theorem c1_counterexample_pack_exception_kills_batch :
    run_full_eval "travel" "v1" (fun _ => ⟨"ans", none, none, []⟩)
      [fun _ _ => .ok (some [⟨"task_success", .bool true, [("type", .str "rule")]⟩]),
       fun _ _ => .error "boom"]
      "tid" "ts" (fun _ => .ok ()) (fun _ => .ok ()) "golden.csv"
      [[("id", "1")], [("id", "2")]] none = .error "boom" := by rfl

/-- C4 (amended, first half): the engine wraps `record_eval_outcome` in a
`try`/`except`, so the run's outcome does not depend on the memory-store
persistence function at all — a memory write failure can never change or
lose the evaluation result. -/
theorem c4_memory_persistence_isolated (autId specVersion : String)
    (runQuery : Json → AUTResponse) (packs : List Pack)
    (traceId traceTs : String) (writeTrace : JObj → Except String Unit)
    (ro₁ ro₂ : EvalRecord → Except String Unit) (goldenPath : String)
    (rows : List Row) (versionId : Option String) :
    run_full_eval autId specVersion runQuery packs traceId traceTs writeTrace ro₁
        goldenPath rows versionId =
      run_full_eval autId specVersion runQuery packs traceId traceTs writeTrace ro₂
        goldenPath rows versionId := by rfl

/-- C4 (counterexample to the claim as stated): with a single testcase and
no packs, a failing trace-store write makes `run_full_eval` raise — the
evaluation result is lost — while the identical run with a working trace
store returns a summary; the claim says a trace persistence failure is
caught and the summary still returned. -/
theorem c4_counterexample_trace_write_failure_aborts :
    run_full_eval "travel" "v1" (fun _ => ⟨"ans", none, none, []⟩) [] "tid" "ts"
      (fun _ => .error "disk full") (fun _ => .ok ()) "golden.csv"
      [[("id", "1")]] none = .error "disk full" ∧
    (∃ s, run_full_eval "travel" "v1" (fun _ => ⟨"ans", none, none, []⟩) [] "tid" "ts"
      (fun _ => .ok ()) (fun _ => .ok ()) "golden.csv"
      [[("id", "1")]] none = .ok (.summary s)) :=
  ⟨rfl, ⟨_, rfl⟩⟩


/- ---------------------------------------------------------------------
C4 continued: generalized trace-write failure propagation.
--------------------------------------------------------------------- -/

theorem logTraceRecord_ok (tid ts : String) (ev : JObj)
    (h1 : objGet ev "tool_calls" = none) (h2 : objGet ev "session_graph" = none) :
    logTraceRecord tid ts ev = .ok
      (objSet (objSet (mergeIntoDict [("trace_id", .str tid), ("timestamp", .str ts)] ev)
        "tool_calls" (.arr [])) "session_graph" (.obj [])) := by
  have g1 : objGet (mergeIntoDict [("trace_id", .str tid), ("timestamp", .str ts)] ev)
      "tool_calls" = none := by
    rw [mergeIntoDict_get_of_none _ _ _ h1]
    simp [objGet]
  have g2 : objGet (objSet (mergeIntoDict [("trace_id", .str tid), ("timestamp", .str ts)] ev)
      "tool_calls" (.arr [])) "session_graph" = none := by
    rw [objGet_objSet_ne _ _ _ _ (by decide)]
    rw [mergeIntoDict_get_of_none _ _ _ h2]
    simp [objGet]
  simp only [logTraceRecord, g1, pure_bind]
  rw [g2]
  rfl

theorem run_single_eval_case_trace_write_error (autId versionId traceId traceTs e : String)
    (runQuery : Json → AUTResponse) (packs : List Pack) (tcRow : Row)
    (hp : ∀ p ∈ packs, ∃ rs, p tcRow (runQuery (buildRequestPayload tcRow)) = .ok rs) :
    run_single_eval_case autId runQuery packs traceId traceTs
      (fun _ => .error e) tcRow versionId = .error e := by
  obtain ⟨ms, hms⟩ := collectPackMetrics_ok packs tcRow _ hp
  simp only [run_single_eval_case, hms]
  rfl

/-- C4 (amended): the engine catches a memory-store persistence failure —
the outcome of `run_full_eval` does not depend on the memory write at all —
but a trace-store write failure is *not* caught: with packs that return
normally and at least one loaded testcase, a failing trace write makes the
whole run raise instead of returning the summary. -/
theorem c4_persistence_split (autId specVersion traceId traceTs goldenPath e : String)
    (runQuery : Json → AUTResponse) (packs : List Pack)
    (rows : List Row) (versionId : Option String) :
    (∀ (writeTrace : JObj → Except String Unit)
        (ro₁ ro₂ : EvalRecord → Except String Unit),
      run_full_eval autId specVersion runQuery packs traceId traceTs writeTrace ro₁
          goldenPath rows versionId =
        run_full_eval autId specVersion runQuery packs traceId traceTs writeTrace ro₂
          goldenPath rows versionId) ∧
    ((∀ p ∈ packs, ∀ tc resp, ∃ rs, p tc resp = .ok rs) →
      rows.filter (fun r =>
        match rowGet r "id" with
        | some s => decide (s ≠ "")
        | none => false) ≠ [] →
      ∀ ro, run_full_eval autId specVersion runQuery packs traceId traceTs
        (fun _ => .error e) ro goldenPath rows versionId = .error e) := by
  constructor
  · intro writeTrace ro₁ ro₂
    rfl
  · intro hpacks hne ro
    simp only [run_full_eval]
    rw [if_neg hne]
    cases hf : rows.filter (fun r =>
        match rowGet r "id" with
        | some s => decide (s ≠ "")
        | none => false) with
    | nil => exact absurd hf hne
    | cons t tsr =>
        simp only [List.foldlM_cons,
          run_single_eval_case_trace_write_error autId
            (resolveTargetVersion versionId specVersion) traceId traceTs e runQuery packs t
            (fun p hp => hpacks p hp t (runQuery (buildRequestPayload t)))]
        rfl

/-- Witness for `c4_persistence_split`: no packs, one testcase, a failing
trace write. -/
theorem c4_persistence_split_witness :
    run_full_eval "travel" "v1" (fun _ => ⟨"ans", none, none, []⟩) [] "tid" "ts"
      (fun _ => .error "disk full") (fun _ => .ok ()) "golden.csv"
      [[("id", "1")]] none = .error "disk full" :=
  (c4_persistence_split "travel" "v1" "tid" "ts" "golden.csv" "disk full"
      (fun _ => ⟨"ans", none, none, []⟩) [] [[("id", "1")]] none).2
    (by intro p hp; simp at hp)
    (by decide)
    (fun _ => .ok ())


/- ---------------------------------------------------------------------
C2: judge-output parsing.
--------------------------------------------------------------------- -/

/-- C2 (counterexample to the claim as stated): on a fenced judge output
whose rationale mentions a digit, the travel pack does not strip the fence —
JSON parsing fails and the digit fallback returns 1 where the claimed
pipeline returns the JSON score 5; on a bare non-JSON output containing
the digit 4, `evaluate_answer` has no digit fallback and scores 0 where the
claimed pipeline scores 4. -/
theorem c2_counterexample_no_shared_pipeline :
    (claimedJudgeResolve "```json\n\x7b\"rationale\": \"needs 1 more day\", \"score\": 5\x7d\n```").1 = 5 ∧
    (travelJudgeResolve (pyStrip "```json\n\x7b\"rationale\": \"needs 1 more day\", \"score\": 5\x7d\n```")).1 = 1 ∧
    (claimedJudgeResolve "I rate this 4").1 = 4 ∧
    objGet (evaluateAnswerOutcome "I rate this 4") "score" = some (.num 0) :=
  ⟨rfl, rfl, rfl, rfl⟩

/-- C2 (amended): the two judge parsers differ.  `_run_llm_judge` parses
the whitespace-stripped text with no fence stripping; on parse failure (or
a non-dict result, or an unconvertible score) it falls back to the first
standalone digit 1-5 as score — else 0 — with the raw text as rationale;
on success it takes the JSON `score`/`rationale`.  `evaluate_answer` strips
code fences before parsing, and a parse failure yields score 0 with a
failure message, with no digit fallback.  Both always produce a result
(the functions are total by construction). -/
theorem c2_judge_parsing_split (text : String) :
    (jsonParse (pyStrip text) = none →
      travelJudgeResolve (pyStrip text) = travelJudgeFallback (pyStrip text)) ∧
    (∀ d, firstStandaloneDigit (pyStrip text) = some d →
      travelJudgeFallback (pyStrip text) = ((d : ℚ), .str (pyStrip text))) ∧
    (firstStandaloneDigit (pyStrip text) = none →
      travelJudgeFallback (pyStrip text) = (0, .str (pyStrip text))) ∧
    (∀ o q, jsonParse (pyStrip text) = some (.obj o) →
      floatConv ((objGet o "score").getD (.num 0)) = some q →
      travelJudgeResolve (pyStrip text) =
        (q, (objGet o "rationale").getD (.str (pyStrip text)))) ∧
    (jsonParse (stripCodeFences (pyStrip text)) = none →
      objGet (evaluateAnswerOutcome text) "score" = some (.num 0) ∧
      objGet (evaluateAnswerOutcome text) "reasoning" =
        some (.str ("Failed to parse JSON from eval model. Raw response: " ++ pyStrip text))) := by
  refine ⟨?_, ?_, ?_, ?_, ?_⟩
  · intro h
    simp [travelJudgeResolve, h]
  · intro d h
    simp [travelJudgeFallback, h]
  · intro h
    simp [travelJudgeFallback, h]
  · intro o q h hf
    simp [travelJudgeResolve, h, hf]
  · intro h
    simp only [evaluateAnswerOutcome, h]
    constructor <;> simp [objGet]

/-- Witness for `c2_judge_parsing_split` on the text `"I rate this 4"`. -/
theorem c2_judge_parsing_split_witness :
    jsonParse (pyStrip "I rate this 4") = none ∧
    travelJudgeResolve (pyStrip "I rate this 4") = travelJudgeFallback (pyStrip "I rate this 4") :=
  ⟨rfl, (c2_judge_parsing_split "I rate this 4").1 rfl⟩

/- ---------------------------------------------------------------------
C3: corrupted lines in the two record stores.
--------------------------------------------------------------------- -/

/-- C3 (counterexample to the claim as stated): a backing log of three
lines whose middle line is corrupted.  The trace store keeps all three
entries with a synthetic error record in the middle, but the memory
store's `load_memories` silently skips the corrupted line and returns only
two entries — not the three the claim promises for both stores. -/
theorem c3_counterexample_memory_store_drops_corrupt_line :
    load_traces (some ["\x7b\"a\": 1\x7d", "\x7boops", "\x7b\"b\": 2\x7d"]) =
      [.obj [("a", .num 1)], corruptTraceRecord "\x7boops", .obj [("b", .num 2)]] ∧
    load_memories none none none (some ["\x7b\"a\": 1\x7d", "\x7boops", "\x7b\"b\": 2\x7d"]) =
      .ok [.obj [("a", .num 1)], .obj [("b", .num 2)]] :=
  ⟨rfl, rfl⟩

/-- C3 (amended): lines are parsed independently in both stores and a
corrupted line never hides the others, but the stores differ on the
corrupted line itself: `load_traces` keeps it as the synthetic record
`{_raw_line, error: "failed_to_parse_json"}` at its position (three lines
in, three entries out, whatever the position), while `load_memories`
skips it (three lines in, two entries out). -/
theorem c3_per_line_isolation (v₁ v₂ c : String) (j₁ j₂ : Json)
    (h₁ : jsonParse (pyStrip v₁) = some j₁) (h₁' : pyStrip v₁ ≠ "")
    (h₂ : jsonParse (pyStrip v₂) = some j₂) (h₂' : pyStrip v₂ ≠ "")
    (hc : jsonParse (pyStrip c) = none) (hc' : pyStrip c ≠ "") :
    load_traces (some [c, v₁, v₂]) = [corruptTraceRecord (pyStrip c), j₁, j₂] ∧
    load_traces (some [v₁, c, v₂]) = [j₁, corruptTraceRecord (pyStrip c), j₂] ∧
    load_traces (some [v₁, v₂, c]) = [j₁, j₂, corruptTraceRecord (pyStrip c)] ∧
    load_memories none none none (some [v₁, c, v₂]) = .ok [j₁, j₂] := by
  refine ⟨?_, ?_, ?_, ?_⟩
  · simp [load_traces, h₁, h₂, hc, h₁', h₂', hc']
  · simp [load_traces, h₁, h₂, hc, h₁', h₂', hc']
  · simp [load_traces, h₁, h₂, hc, h₁', h₂', hc']
  · simp [load_memories, List.foldlM_cons, h₁, h₂, hc, h₁', h₂', hc', pyTailLimit]
    rfl

/-- Witness for `c3_per_line_isolation` on concrete lines. -/
theorem c3_per_line_isolation_witness :
    jsonParse (pyStrip "\x7b\"a\": 1\x7d") = some (.obj [("a", .num 1)]) ∧
    load_memories none none none (some ["\x7b\"a\": 1\x7d", "\x7boops", "\x7b\"b\": 2\x7d"]) =
      .ok [.obj [("a", .num 1)], .obj [("b", .num 2)]] :=
  ⟨rfl,
    (c3_per_line_isolation "\x7b\"a\": 1\x7d" "\x7b\"b\": 2\x7d" "\x7boops"
      (.obj [("a", .num 1)]) (.obj [("b", .num 2)])
      rfl (by decide) rfl (by decide) rfl (by decide)).2.2.2⟩


/- ---------------------------------------------------------------------
C8 and C9: golden-set growth.
--------------------------------------------------------------------- -/

theorem exceptBind_ok {α β ε : Type} (x : α) (f : α → Except ε β) :
    (Except.ok x >>= f) = f x := rfl

theorem exceptBind_error {α β ε : Type} (e : ε) (f : α → Except ε β) :
    ((Except.error e : Except ε α) >>= f) = .error e := rfl

theorem exceptMap_ok {α β ε : Type} (x : α) (f : α → β) :
    (f <$> (Except.ok x : Except ε α)) = .ok (f x) := rfl

theorem exceptMap_error {α β ε : Type} (e : ε) (f : α → β) :
    (f <$> (Except.error e : Except ε α)) = .error e := rfl

theorem extrasFold_preserves (tc : List (String × String)) :
    ∀ (start : Row × List String) (k : String), (rowGet start.1 k).isSome →
      rowGet (tc.foldl
        (fun (acc : Row × List String) p =>
          if (rowGet acc.1 p.1).isSome then acc
          else (acc.1 ++ [(p.1, p.2)], if p.1 ∈ acc.2 then acc.2 else acc.2 ++ [p.1]))
        start).1 k = rowGet start.1 k := by
  induction tc with
  | nil => intro start k _; rfl
  | cons p rest ih =>
      intro start k hk
      by_cases hmem : (rowGet start.1 p.1).isSome
      · simp only [List.foldl_cons, if_pos hmem]
        exact ih start k hk
      · simp only [List.foldl_cons, if_neg hmem]
        have hpres : rowGet (start.1 ++ [(p.1, p.2)]) k = rowGet start.1 k :=
          rowGet_append_of_isSome _ _ _ hk
        rw [ih (start.1 ++ [(p.1, p.2)], _) k (by simp [hpres, hk])]
        exact hpres

theorem rowKeys_rowSet_subset (r : Row) (k v : String) :
    ∀ k', k' ∈ rowKeys (rowSet r k v) → k' ∈ rowKeys r ∨ k' = k := by
  induction r with
  | nil =>
      intro k' h
      simp only [rowSet, rowKeys, List.map_cons, List.map_nil, List.mem_singleton] at h
      exact Or.inr h
  | cons p rest ih =>
      intro k' h
      obtain ⟨pk, pv⟩ := p
      by_cases hpk : pk = k
      · simp only [rowSet, if_pos hpk, rowKeys, List.map_cons, List.mem_cons] at h ⊢
        exact Or.inl h
      · simp only [rowSet, if_neg hpk, rowKeys, List.map_cons, List.mem_cons] at h ⊢
        rcases h with h | h
        · exact Or.inl (Or.inl h)
        · rcases ih k' h with h2 | h2
          · exact Or.inl (Or.inr h2)
          · exact Or.inr h2

theorem extrasFold_keys (tc : List (String × String)) :
    ∀ (start : Row × List String),
      (∀ k ∈ rowKeys start.1, k ∈ start.2) →
      (∀ k ∈ start.2, k ∈ (tc.foldl
          (fun (acc : Row × List String) p =>
            if (rowGet acc.1 p.1).isSome then acc
            else (acc.1 ++ [(p.1, p.2)], if p.1 ∈ acc.2 then acc.2 else acc.2 ++ [p.1]))
          start).2) ∧
      (∀ k ∈ rowKeys (tc.foldl
          (fun (acc : Row × List String) p =>
            if (rowGet acc.1 p.1).isSome then acc
            else (acc.1 ++ [(p.1, p.2)], if p.1 ∈ acc.2 then acc.2 else acc.2 ++ [p.1]))
          start).1, k ∈ (tc.foldl
          (fun (acc : Row × List String) p =>
            if (rowGet acc.1 p.1).isSome then acc
            else (acc.1 ++ [(p.1, p.2)], if p.1 ∈ acc.2 then acc.2 else acc.2 ++ [p.1]))
          start).2) := by
  induction tc with
  | nil =>
      intro start hstart
      exact ⟨fun k hk => hk, hstart⟩
  | cons p rest ih =>
      intro start hstart
      by_cases hmem : (rowGet start.1 p.1).isSome
      · simp only [List.foldl_cons, if_pos hmem]
        exact ih start hstart
      · simp only [List.foldl_cons, if_neg hmem]
        have hstart2 : ∀ k ∈ rowKeys (start.1 ++ [(p.1, p.2)]),
            k ∈ (if p.1 ∈ start.2 then start.2 else start.2 ++ [p.1]) := by
          intro k hk
          simp only [rowKeys, List.map_append, List.map_cons, List.map_nil,
            List.mem_append, List.mem_singleton] at hk
          rcases hk with hk | hk
          · have hk2 := hstart k hk
            split
            · exact hk2
            · exact List.mem_append.mpr (Or.inl hk2)
          · subst hk
            split
            next hin => exact hin
            next _ => exact List.mem_append.mpr (Or.inr (List.mem_singleton.mpr rfl))
        obtain ⟨hmono, hkeys⟩ := ih (start.1 ++ [(p.1, p.2)],
          if p.1 ∈ start.2 then start.2 else start.2 ++ [p.1]) hstart2
        refine ⟨?_, hkeys⟩
        intro k hk
        apply hmono
        show k ∈ (if p.1 ∈ start.2 then start.2 else start.2 ++ [p.1])
        split
        · exact hk
        · exact List.mem_append.mpr (Or.inl hk)

theorem buildNewRow_ok_of_no_id (fns : List String) (nid : Int) (tc : Row)
    (hid : rowGet tc "id" = none)
    (hreq : ∀ f ∈ defaultRequiredFields, (rowGet tc f).isSome)
    (hfns : "id" ∈ fns ∧ ∀ f ∈ defaultRequiredFields, f ∈ fns) :
    ∃ row fns', buildNewRow defaultRequiredFields fns nid tc = .ok (row, fns', nid + 1) ∧
      rowGet row "id" = some (toString nid) ∧
      (∀ k ∈ fns, k ∈ fns') ∧ (∀ k ∈ rowKeys row, k ∈ fns') := by
  obtain ⟨v1, hv1⟩ := Option.isSome_iff_exists.mp (hreq "input_json" (by decide))
  obtain ⟨v2, hv2⟩ := Option.isSome_iff_exists.mp (hreq "judge_question" (by decide))
  obtain ⟨v3, hv3⟩ := Option.isSome_iff_exists.mp (hreq "expected_behavior" (by decide))
  have hrow1 : rowGet (rowSet (rowSet (rowSet [("id", toString nid)] "input_json" v1)
      "judge_question" v2) "expected_behavior" v3) "id" = some (toString nid) := by
    rw [rowGet_rowSet_ne _ _ _ _ (by decide), rowGet_rowSet_ne _ _ _ _ (by decide),
      rowGet_rowSet_ne _ _ _ _ (by decide)]
    rfl
  have hb : buildNewRow defaultRequiredFields fns nid tc =
      .ok ((tc.foldl
        (fun (acc : Row × List String) p =>
          if (rowGet acc.1 p.1).isSome then acc
          else (acc.1 ++ [(p.1, p.2)], if p.1 ∈ acc.2 then acc.2 else acc.2 ++ [p.1]))
        (rowSet (rowSet (rowSet [("id", toString nid)] "input_json" v1)
          "judge_question" v2) "expected_behavior" v3, fns)).1,
      (tc.foldl
        (fun (acc : Row × List String) p =>
          if (rowGet acc.1 p.1).isSome then acc
          else (acc.1 ++ [(p.1, p.2)], if p.1 ∈ acc.2 then acc.2 else acc.2 ++ [p.1]))
        (rowSet (rowSet (rowSet [("id", toString nid)] "input_json" v1)
          "judge_question" v2) "expected_behavior" v3, fns)).2, nid + 1) := by
    simp only [buildNewRow, hid, defaultRequiredFields, List.foldlM_cons, hv1, hv2, hv3,
      pure_bind, List.foldlM_nil]
    rfl
  have hrow1keys : ∀ k ∈ rowKeys (rowSet (rowSet (rowSet [("id", toString nid)]
      "input_json" v1) "judge_question" v2) "expected_behavior" v3), k ∈ fns := by
    intro k hk
    rcases rowKeys_rowSet_subset _ _ _ k hk with hk | rfl
    · rcases rowKeys_rowSet_subset _ _ _ k hk with hk | rfl
      · rcases rowKeys_rowSet_subset _ _ _ k hk with hk | rfl
        · simp only [rowKeys, List.map_cons, List.map_nil, List.mem_singleton] at hk
          subst hk
          exact hfns.1
        · exact hfns.2 "input_json" (by decide)
      · exact hfns.2 "judge_question" (by decide)
    · exact hfns.2 "expected_behavior" (by decide)
  obtain ⟨hmono, hkeys⟩ := extrasFold_keys tc
    (rowSet (rowSet (rowSet [("id", toString nid)] "input_json" v1)
      "judge_question" v2) "expected_behavior" v3, fns) hrow1keys
  refine ⟨_, _, hb, ?_, hmono, hkeys⟩
  rw [extrasFold_preserves tc _ "id" (by simp [hrow1]), hrow1]

theorem appendFold_sequential_ids (tcs : List Row) :
    ∀ (fns : List String) (nid : Int) (accRows : List Row),
      (∀ tc ∈ tcs, rowGet tc "id" = none) →
      (∀ tc ∈ tcs, ∀ f ∈ defaultRequiredFields, (rowGet tc f).isSome) →
      ("id" ∈ fns ∧ ∀ f ∈ defaultRequiredFields, f ∈ fns) →
      ∃ newRows fns',
        List.foldlM
          (fun (acc : List Row × List String × Int) tc => do
            let step ← buildNewRow defaultRequiredFields acc.2.1 acc.2.2 tc
            pure (acc.1 ++ [step.1], step.2.1, step.2.2))
          (accRows, fns, nid) tcs = .ok (accRows ++ newRows, fns', nid + tcs.length) ∧
        newRows.map (fun r => rowGet r "id") =
          (List.range tcs.length).map (fun (i : ℕ) => some (toString (nid + (i : Int)))) ∧
        (∀ k ∈ fns, k ∈ fns') ∧
        (∀ row ∈ newRows, ∀ k ∈ rowKeys row, k ∈ fns') := by
  induction tcs with
  | nil =>
      intro fns nid accRows _ _ _
      refine ⟨[], fns, ?_, by simp, fun k hk => hk, by simp⟩
      simp only [List.foldlM_nil, List.append_nil, List.length_nil, Nat.cast_zero, add_zero]
      rfl
  | cons tc tcs' ih =>
      intro fns nid accRows hids hreq hfns
      obtain ⟨row, fns1, hb, hrow, hmono1, hkeys1⟩ :=
        buildNewRow_ok_of_no_id fns nid tc (hids tc (by simp))
          (hreq tc (by simp)) hfns
      obtain ⟨newRows', fns', hfold, hmap, hmono2, hkeys2⟩ :=
        ih fns1 (nid + 1) (accRows ++ [row])
          (fun t ht => hids t (by simp [ht]))
          (fun t ht => hreq t (by simp [ht]))
          ⟨hmono1 "id" hfns.1, fun f hf => hmono1 f (hfns.2 f hf)⟩
      refine ⟨row :: newRows', fns', ?_, ?_, fun k hk => hmono2 k (hmono1 k hk), ?_⟩
      · simp only [List.foldlM_cons, hb, exceptMap_ok, exceptBind_ok, pure_bind]
        rw [hfold]
        have harith : nid + 1 + (tcs'.length : Int) = nid + ((tcs'.length : Int) + 1) := by
          ring
        simp [List.append_assoc, harith, List.length_cons]
      · rw [List.map_cons, hrow, hmap, List.length_cons, List.range_succ_eq_map,
          List.map_cons, List.map_map]
        congr 1
        · norm_num
        · apply List.map_congr_left
          intro i _
          simp only [Function.comp_apply]
          congr 2
          push_cast
          ring
      · intro r hr k hk
        rcases List.mem_cons.mp hr with h | h
        · subst h
          exact hmono2 k (hkeys1 k hk)
        · exact hkeys2 r h k hk

theorem writeCheckFold_ok (fnsW : List String) (rowsW : List Row)
    (hok : ∀ r ∈ rowsW, ∀ k ∈ rowKeys r, k ∈ fnsW) :
    List.foldlM
      (fun (_ : Unit) row =>
        if wrongFields fnsW row = [] then pure ()
        else Except.error ("dict contains fields not in fieldnames: "
          ++ String.intercalate ", " (wrongFields fnsW row)))
      () rowsW = (.ok () : Except String Unit) := by
  induction rowsW with
  | nil => rfl
  | cons r rest ih =>
      have hnil : wrongFields fnsW r = [] := by
        rw [wrongFields, List.filter_eq_nil_iff]
        intro k hk
        simp only [decide_eq_true_eq, not_not]
        exact hok r (by simp) k hk
      simp only [List.foldlM_cons, hnil, if_pos rfl, pure_bind]
      exact ih (fun t ht => hok t (by simp [ht]))

/-- C8 (amended): the next auto id is one more than the largest
integer-parseable existing id (non-numeric ids ignored, default 0) — so
existing ids `["1","3","x"]` give 4 — and id-less new testcases receive
sequential ids from that value in list order and are appended, provided
the effective header (the first existing row's columns, or the default
columns when no usable rows exist) covers the id and required columns —
otherwise `csv.DictWriter` raises ValueError at the first `writerow`.
Appending two id-less testcases to an *absent* golden set yields ids `"1"`
and `"2"` with a header row written first; but when the file exists (even
empty), no header is written — the header is tied to file absence, not
emptiness. -/
theorem c8_next_id_and_sequential_assignment (state : CsvFileState) (tcs rows : List Row)
    (hids : ∀ tc ∈ tcs, rowGet tc "id" = none)
    (hreq : ∀ tc ∈ tcs, ∀ f ∈ defaultRequiredFields, (rowGet tc f).isSome)
    (hcols : ∀ k ∈ "id" :: defaultRequiredFields, k ∈ initialFieldnames state) :
    nextId [[("id", "1")], [("id", "3")], [("id", "x")]] = 4 ∧
    nextId rows = 1 + (rows.filterMap (fun r => (rowGet r "id").bind pyIntOfString)).foldl max 0 ∧
    (∃ out, append_new_testcases state tcs none = .ok out ∧
      out.written.map (fun r => rowGet r "id") =
        (List.range tcs.length).map
          (fun (i : ℕ) => some (toString (nextId (readExistingTestcases state) + (i : Int))))) ∧
    append_new_testcases ⟨false, []⟩
      [[("input_json", "\x7b\x7d"), ("judge_question", "q1"), ("expected_behavior", "e1")],
       [("input_json", "\x7b\x7d"), ("judge_question", "q2"), ("expected_behavior", "e2")]] none
      = .ok { headerWritten := true, header := defaultGoldenFields,
              written :=
                [[("id", "1"), ("input_json", "\x7b\x7d"), ("judge_question", "q1"),
                  ("expected_behavior", "e1")],
                 [("id", "2"), ("input_json", "\x7b\x7d"), ("judge_question", "q2"),
                  ("expected_behavior", "e2")]] } := by
  refine ⟨by decide, ?_, ?_, by rfl⟩
  · suffices h : ∀ (rs : List Row) (init : Int),
        rs.foldl
          (fun maxId r =>
            match rowGet r "id" with
            | none => maxId
            | some rid =>
                match pyIntOfString rid with
                | some num => if num > maxId then num else maxId
                | none => maxId)
          init = (rs.filterMap (fun r => (rowGet r "id").bind pyIntOfString)).foldl max init by
      rw [nextId, h rows 0]
      ring
    intro rs
    induction rs with
    | nil => intro init; rfl
    | cons r rest ih =>
        intro init
        cases hg : rowGet r "id" with
        | none => simp [List.foldl_cons, List.filterMap_cons, hg, ih]
        | some rid =>
            cases hi : pyIntOfString rid with
            | none => simp [List.foldl_cons, List.filterMap_cons, hg, hi, ih]
            | some num =>
                simp only [List.foldl_cons, List.filterMap_cons, hg, hi, Option.some_bind, ih]
                congr 1
                rcases le_or_lt num init with h | h
                · rw [if_neg (by omega), max_eq_left h]
                · rw [if_pos h, max_eq_right (le_of_lt h)]
  · cases htcs : tcs with
    | nil =>
        refine ⟨⟨false, [], []⟩, ?_, by simp⟩
        rfl
    | cons t ts =>
        obtain ⟨newRows, fns', hfold, hmap, hmono, hkeys⟩ :=
          appendFold_sequential_ids (t :: ts) (initialFieldnames state)
            (nextId (readExistingTestcases state)) []
            (htcs ▸ hids) (htcs ▸ hreq)
            ⟨hcols "id" (by simp), fun f hf => hcols f (List.mem_cons.mpr (Or.inr hf))⟩
        refine ⟨⟨! state.present, fns', newRows⟩, ?_, ?_⟩
        · simp only [append_new_testcases, if_neg (by simp : t :: ts ≠ [])]
          simp only [hfold, List.nil_append, exceptBind_ok, pure_bind]
          rw [writeCheckFold_ok fns' newRows hkeys]
          rfl
        · simpa using hmap

/-- Witness for `c8_next_id_and_sequential_assignment`: one id-less
testcase appended to an existing golden set whose rows carry the default
columns and ids 1, 3, x. -/
theorem c8_next_id_and_sequential_assignment_witness :
    ∃ out, append_new_testcases
      ⟨true, [[("id", "1"), ("input_json", "a1"), ("judge_question", "b1"),
               ("expected_behavior", "c1")],
              [("id", "3"), ("input_json", "a3"), ("judge_question", "b3"),
               ("expected_behavior", "c3")],
              [("id", "x"), ("input_json", "ax"), ("judge_question", "bx"),
               ("expected_behavior", "cx")]]⟩
      [[("input_json", "\x7b\x7d"), ("judge_question", "q"), ("expected_behavior", "e")]] none
      = .ok out ∧
      out.written.map (fun r => rowGet r "id") = [some "4"] := by
  obtain ⟨-, -, ⟨out, hout, hmap⟩, -⟩ :=
    c8_next_id_and_sequential_assignment
      ⟨true, [[("id", "1"), ("input_json", "a1"), ("judge_question", "b1"),
               ("expected_behavior", "c1")],
              [("id", "3"), ("input_json", "a3"), ("judge_question", "b3"),
               ("expected_behavior", "c3")],
              [("id", "x"), ("input_json", "ax"), ("judge_question", "bx"),
               ("expected_behavior", "cx")]]⟩
      [[("input_json", "\x7b\x7d"), ("judge_question", "q"), ("expected_behavior", "e")]]
      []
      (by intro tc htc; simp at htc; subst htc; rfl)
      (by intro tc htc f hf
          simp at htc
          subst htc
          fin_cases hf <;> rfl)
      (by decide)
  refine ⟨out, hout, ?_⟩
  have h4 : nextId (readExistingTestcases
      ⟨true, [[("id", "1"), ("input_json", "a1"), ("judge_question", "b1"),
               ("expected_behavior", "c1")],
              [("id", "3"), ("input_json", "a3"), ("judge_question", "b3"),
               ("expected_behavior", "c3")],
              [("id", "x"), ("input_json", "ax"), ("judge_question", "bx"),
               ("expected_behavior", "cx")]]⟩) = 4 := by decide
  rw [h4] at hmap
  simpa using hmap

theorem requiredFold_error (tc : Row) :
    ∀ (required : List String) (row : Row), (∃ f ∈ required, rowGet tc f = none) →
      ∃ msg, List.foldlM
        (fun row f =>
          match rowGet tc f with
          | some v => pure (rowSet row f v)
          | none => Except.error ("New testcase missing required field: " ++ f))
        row required = .error msg := by
  intro required
  induction required with
  | nil => intro row h; simp at h
  | cons f0 fs ih =>
      intro row h
      cases h0 : rowGet tc f0 with
      | none =>
          refine ⟨"New testcase missing required field: " ++ f0, ?_⟩
          simp only [List.foldlM_cons, h0, exceptBind_error]
      | some v =>
          obtain ⟨f, hf, hfn⟩ := h
          have hfs : f ∈ fs := by
            rcases List.mem_cons.mp hf with h | h
            · subst h; rw [h0] at hfn; cases hfn
            · exact h
          obtain ⟨msg, hmsg⟩ := ih (rowSet row f0 v) ⟨f, hfs, hfn⟩
          refine ⟨msg, ?_⟩
          simp only [List.foldlM_cons, h0, pure_bind]
          exact hmsg

theorem buildNewRow_error_of_missing (fns : List String) (nid : Int) (tc : Row)
    (hmiss : ∃ f ∈ defaultRequiredFields, rowGet tc f = none) :
    ∃ msg, buildNewRow defaultRequiredFields fns nid tc = .error msg := by
  obtain ⟨msg, hmsg⟩ := requiredFold_error tc defaultRequiredFields
    [("id", (match rowGet tc "id" with | some v => (v, nid) | none => (toString nid, nid + 1)).1)]
    hmiss
  exact ⟨msg, by simp [buildNewRow, hmsg]⟩

theorem appendFold_error (tcs : List Row)
    (hmiss : ∃ tc ∈ tcs, ∃ f ∈ defaultRequiredFields, rowGet tc f = none) :
    ∀ (acc : List Row × List String × Int),
      ∃ msg, List.foldlM
        (fun (acc : List Row × List String × Int) tc => do
          let step ← buildNewRow defaultRequiredFields acc.2.1 acc.2.2 tc
          pure (acc.1 ++ [step.1], step.2.1, step.2.2))
        acc tcs = .error msg := by
  induction tcs with
  | nil => simp at hmiss
  | cons tc tcs' ih =>
      intro acc
      cases hb : buildNewRow defaultRequiredFields acc.2.1 acc.2.2 tc with
      | error m =>
          refine ⟨m, ?_⟩
          simp only [List.foldlM_cons, hb, exceptMap_error, exceptBind_error]
      | ok trip =>
          obtain ⟨t, ht, hmt⟩ := hmiss
          rcases List.mem_cons.mp ht with h | h
          · subst h
            obtain ⟨msg, hmsg⟩ := buildNewRow_error_of_missing acc.2.1 acc.2.2 t hmt
            rw [hb] at hmsg
            cases hmsg
          · obtain ⟨msg, hmsg⟩ := ih ⟨t, h, hmt⟩ (acc.1 ++ [trip.1], trip.2.1, trip.2.2)
            refine ⟨msg, ?_⟩
            simp only [List.foldlM_cons, hb, exceptMap_ok, exceptBind_ok, pure_bind]
            exact hmsg

/-- C9: if any new testcase lacks a required field, the whole golden-set
append raises `ValueError` during the normalization pass, which runs before
the file is opened — the returned error carries no write, so no row from
the changeset is persisted. -/
theorem c9_missing_required_field_rejects_whole_append (state : CsvFileState)
    (tcs : List Row) (hne : tcs ≠ [])
    (hmiss : ∃ tc ∈ tcs, ∃ f ∈ defaultRequiredFields, rowGet tc f = none) :
    ∃ msg, append_new_testcases state tcs none = .error msg := by
  obtain ⟨msg, hmsg⟩ := appendFold_error tcs hmiss
    ([], initialFieldnames state, nextId (readExistingTestcases state))
  refine ⟨msg, ?_⟩
  simp only [append_new_testcases, if_neg hne]
  simp only [hmsg]
  rfl

/-- Witness for `c9_missing_required_field_rejects_whole_append`: a batch
of one complete and one incomplete testcase is rejected whole. -/
theorem c9_missing_required_field_rejects_whole_append_witness :
    ∃ msg, append_new_testcases ⟨false, []⟩
      [[("input_json", "\x7b\x7d"), ("judge_question", "q"), ("expected_behavior", "e")],
       [("judge_question", "q2"), ("expected_behavior", "e2")]] none = .error msg :=
  c9_missing_required_field_rejects_whole_append ⟨false, []⟩
    [[("input_json", "\x7b\x7d"), ("judge_question", "q"), ("expected_behavior", "e")],
     [("judge_question", "q2"), ("expected_behavior", "e2")]]
    (by decide)
    ⟨[("judge_question", "q2"), ("expected_behavior", "e2")], by simp,
      "input_json", by decide, rfl⟩

/-- C8 (counterexample to the claim as stated): appending two id-less
testcases to an *existing but empty* golden file assigns ids `"1"` and
`"2"` but writes *no* header row — `writeheader` runs only when the file
does not exist, so "absent/empty ... with a header row written first" fails
on the existing-empty case. -/
theorem c8_counterexample_existing_empty_file_gets_no_header :
    append_new_testcases ⟨true, []⟩
      [[("input_json", "\x7b\x7d"), ("judge_question", "q1"), ("expected_behavior", "e1")],
       [("input_json", "\x7b\x7d"), ("judge_question", "q2"), ("expected_behavior", "e2")]] none
      = .ok { headerWritten := false, header := defaultGoldenFields,
              written :=
                [[("id", "1"), ("input_json", "\x7b\x7d"), ("judge_question", "q1"),
                  ("expected_behavior", "e1")],
                 [("id", "2"), ("input_json", "\x7b\x7d"), ("judge_question", "q2"),
                  ("expected_behavior", "e2")]] } := by rfl

/- ---------------------------------------------------------------------
C10: caller-supplied provenance fields win over generated ones.
--------------------------------------------------------------------- -/

theorem logTraceRecord_preserves_key (tid ts : String) (entry : JObj) (k : String)
    (hk1 : k ≠ "tool_calls") (hk2 : k ≠ "session_graph") :
    ∀ r, logTraceRecord tid ts entry = .ok r →
      objGet r k =
        objGet (mergeIntoDict [("trace_id", .str tid), ("timestamp", .str ts)] entry) k := by
  intro r hr
  simp only [logTraceRecord] at hr
  cases h1 : objGet (mergeIntoDict [("trace_id", .str tid), ("timestamp", .str ts)] entry)
      "tool_calls" with
  | none =>
      rw [h1] at hr
      simp only [pure_bind] at hr
      cases hr
      split
      all_goals rw [objGet_objSet_ne _ _ _ _ hk2, objGet_objSet_ne _ _ _ _ hk1]
  | some tcv =>
      rw [h1] at hr
      cases hn : normalizeToolCalls tcv with
      | error e => simp [hn] at hr
      | ok ntc =>
          simp only [hn, exceptBind_ok, pure_bind] at hr
          cases hr
          split
          all_goals rw [objGet_objSet_ne _ _ _ _ hk2, objGet_objSet_ne _ _ _ _ hk1]

/-- C10: when the caller's entry already carries the store's id key
(`memory_id`/`trace_id`) or `timestamp`, the stored record keeps the
caller's values — the `**entry` spread comes after the generated fields —
so the freshly generated values are not the ones persisted; only when
those keys are absent do the generated id and timestamp appear in the
record. -/
theorem c10_caller_provenance_fields_win (memId tid ts : String) (entry : JObj)
    (hnd : (entry.map Prod.fst).Nodup) :
    (∀ v, objGet entry "memory_id" = some v →
      objGet (appendMemoryRecord memId ts entry) "memory_id" = some v) ∧
    (∀ v, objGet entry "timestamp" = some v →
      objGet (appendMemoryRecord memId ts entry) "timestamp" = some v) ∧
    (objGet entry "memory_id" = none →
      objGet (appendMemoryRecord memId ts entry) "memory_id" = some (.str memId)) ∧
    (objGet entry "timestamp" = none →
      objGet (appendMemoryRecord memId ts entry) "timestamp" = some (.str ts)) ∧
    (∀ r, logTraceRecord tid ts entry = .ok r →
      (∀ v, objGet entry "trace_id" = some v → objGet r "trace_id" = some v) ∧
      (objGet entry "trace_id" = none → objGet r "trace_id" = some (.str tid)) ∧
      (∀ v, objGet entry "timestamp" = some v → objGet r "timestamp" = some v) ∧
      (objGet entry "timestamp" = none → objGet r "timestamp" = some (.str ts))) := by
  refine ⟨?_, ?_, ?_, ?_, ?_⟩
  · intro v hv
    exact mergeIntoDict_get_of_some entry _ _ _ hnd hv
  · intro v hv
    exact mergeIntoDict_get_of_some entry _ _ _ hnd hv
  · intro hv
    rw [appendMemoryRecord, mergeIntoDict_get_of_none entry _ _ hv]
    rfl
  · intro hv
    rw [appendMemoryRecord, mergeIntoDict_get_of_none entry _ _ hv]
    rfl
  · intro r hr
    have hp := logTraceRecord_preserves_key tid ts entry
    refine ⟨?_, ?_, ?_, ?_⟩
    · intro v hv
      rw [hp "trace_id" (by decide) (by decide) r hr]
      exact mergeIntoDict_get_of_some entry _ _ _ hnd hv
    · intro hv
      rw [hp "trace_id" (by decide) (by decide) r hr,
        mergeIntoDict_get_of_none entry _ _ hv]
      rfl
    · intro v hv
      rw [hp "timestamp" (by decide) (by decide) r hr]
      exact mergeIntoDict_get_of_some entry _ _ _ hnd hv
    · intro hv
      rw [hp "timestamp" (by decide) (by decide) r hr,
        mergeIntoDict_get_of_none entry _ _ hv]
      rfl

/-- Witness for `c10_caller_provenance_fields_win`: a memory entry that
supplies its own `memory_id`, and a trace event that supplies its own
`trace_id`. -/
theorem c10_caller_provenance_fields_win_witness :
    objGet (appendMemoryRecord "gen-mem" "2024-01-01T00:00:00Z"
      [("memory_id", .str "custom"), ("note", .str "x")]) "memory_id" = some (.str "custom") ∧
    ∃ r, logTraceRecord "gen-trace" "2024-01-01T00:00:00Z"
        [("trace_id", .str "mine"), ("note", .str "x")] = .ok r ∧
      objGet r "trace_id" = some (.str "mine") := by
  have h := c10_caller_provenance_fields_win "gen-mem" "gen-trace" "2024-01-01T00:00:00Z"
    [("memory_id", .str "custom"), ("note", .str "x")] (by decide)
  have h2 := c10_caller_provenance_fields_win "gen-mem" "gen-trace" "2024-01-01T00:00:00Z"
    [("trace_id", .str "mine"), ("note", .str "x")] (by decide)
  refine ⟨h.1 (.str "custom") rfl, ?_⟩
  cases hr : logTraceRecord "gen-trace" "2024-01-01T00:00:00Z"
      [("trace_id", .str "mine"), ("note", .str "x")] with
  | error e => exact absurd hr (by rw [show logTraceRecord "gen-trace" "2024-01-01T00:00:00Z"
      [("trace_id", .str "mine"), ("note", .str "x")] = .ok
      (objSet (objSet (mergeIntoDict [("trace_id", .str "gen-trace"),
        ("timestamp", .str "2024-01-01T00:00:00Z")]
        [("trace_id", .str "mine"), ("note", .str "x")]) "tool_calls" (.arr []))
        "session_graph" (.obj [])) from rfl]; simp)
  | ok r =>
      exact ⟨r, rfl, ((h2.2.2.2.2) r hr).1 (.str "mine") rfl⟩

end AgentSentinel
